import Mathlib

/-!
Verification development for the SolveSpace shell Boolean engine
(src/srf/boolean.cpp).  The C++ code is shallowly embedded: doubles are
modelled as exact rationals, pointers to BSP nodes as an inductive type with
a nil constructor, fatal assertions as Option, and the external geometric
collaborators (surface evaluators, intersectors, ...) as explicit function
parameters.  Square roots are avoided by carrying unnormalized signed
distances together with the squared norm of the supporting segment, and by
comparing squared distances against squared tolerances; this is equivalent
because the square function is monotone on nonnegative reals.
-/

set_option autoImplicit false

namespace SlvsBool

/-- Tolerance LENGTH_EPS from solvespace.h (1e-6, exact rational here). -/
def LENGTH_EPS : ℚ := 1 / 1000000

/-- Sentinel VERY_POSITIVE (1e17 in the source). -/
def VERY_POSITIVE : ℚ := 100000000000000000

/-- Square of VERY_POSITIVE, the sentinel used where the source compares the
sentinel distance and we compare squared distances. -/
def VERY_POSITIVE_SQ : ℚ := VERY_POSITIVE * VERY_POSITIVE

/-- Modelled from the spec: 2D vector math utility (Point2d of util.cpp,
which is not part of the excerpted source). -/
structure Point2d where
  x : ℚ
  y : ℚ
deriving DecidableEq, Repr

namespace Point2d

def Plus (a b : Point2d) : Point2d := ⟨a.x + b.x, a.y + b.y⟩

def Minus (a b : Point2d) : Point2d := ⟨a.x - b.x, a.y - b.y⟩

def ScaledBy (a : Point2d) (k : ℚ) : Point2d := ⟨a.x * k, a.y * k⟩

def Dot (a b : Point2d) : ℚ := a.x * b.x + a.y * b.y

/-- Modelled from the spec: the 2D normal used by the BSP,
rotating a vector a quarter turn. -/
def Normal (a : Point2d) : Point2d := ⟨a.y, -a.x⟩

def MagSquared (a : Point2d) : ℚ := a.x * a.x + a.y * a.y

end Point2d

/-- Modelled from the spec: 3D vector math utility (Vector of util.cpp). -/
structure Vector where
  x : ℚ
  y : ℚ
  z : ℚ
deriving DecidableEq, Repr

namespace Vector

def From (x y z : ℚ) : Vector := ⟨x, y, z⟩

def Plus (a b : Vector) : Vector := ⟨a.x + b.x, a.y + b.y, a.z + b.z⟩

def Minus (a b : Vector) : Vector := ⟨a.x - b.x, a.y - b.y, a.z - b.z⟩

def Dot (a b : Vector) : ℚ := a.x * b.x + a.y * b.y + a.z * b.z

def MagSquared (a : Vector) : ℚ := a.Dot a

/-- Modelled from the spec: Vector::Equals(v, tol = LENGTH_EPS).  The source
short-circuits on the components and then tests the squared magnitude of the
difference against the squared tolerance; the short-circuits never change
the result, so the squared-magnitude test alone is the faithful model. -/
def Equals (a b : Vector) : Bool :=
  decide ((a.Minus b).MagSquared < LENGTH_EPS * LENGTH_EPS)

/-- Modelled from the spec: Vector::DivProjected(delta), the projected
parameter of this vector along delta (dot quotient). -/
def DivProjected (a delta : Vector) : ℚ := a.Dot delta / delta.Dot delta

end Vector

/-! ## Keep policy (KeepRegion / KeepEdge, boolean.cpp lines 193-234) -/

/-- Modelled from the spec: SShell::Class, the four-way classification of a
probe against a shell (surface.h is not part of the excerpted source). -/
inductive SShellClass where
  | INSIDE
  | OUTSIDE
  | COINC_SAME
  | COINC_OPP
deriving DecidableEq, Repr, Fintype

/-- Modelled from the spec: SSurface::CombineAs, the Boolean operation
selector (surface.h is not part of the excerpted source).  The spec names
union, difference and assembly. -/
inductive CombineAs where
  | UNION
  | DIFFERENCE
  | ASSEMBLE
deriving DecidableEq, Repr, Fintype

/-- KeepRegion from boolean.cpp lines 193-222.  The default branch of the
switch is a fatal assertion (ssassert), modelled as none. -/
def KeepRegion (type : CombineAs) (opA : Bool) (shell orig : SShellClass) :
    Option Bool :=
  let inShell : Bool := shell = SShellClass.INSIDE
  let inSame : Bool := shell = SShellClass.COINC_SAME
  let inOpp : Bool := shell = SShellClass.COINC_OPP
  let inOrig : Bool := orig = SShellClass.INSIDE
  let inFace : Bool := inSame || inOpp
  if !inOrig then some false
  else
    match type with
    | CombineAs.UNION =>
        if opA then some (!inShell && !inFace)
        else some ((!inShell && !inFace) || inSame)
    | CombineAs.DIFFERENCE =>
        if opA then some (!inShell && !inFace)
        else some ((inShell && !inFace) || inSame)
    | CombineAs.ASSEMBLE => none

/-- KeepEdge from boolean.cpp lines 223-234: keep an edge exactly when the
region on its in-normal side is kept and the region on its out-normal side
is not.  Assertion failure in either KeepRegion call propagates as none. -/
def KeepEdge (type : CombineAs) (opA : Bool)
    (indirShell outdirShell indirOrig outdirOrig : SShellClass) :
    Option Bool :=
  match KeepRegion type opA indirShell indirOrig,
        KeepRegion type opA outdirShell outdirOrig with
  | some keepIn, some keepOut => some (keepIn && !keepOut)
  | _, _ => none

/-- Truth table of claim C1, written exactly as the claim states it: false
whenever orig is OUTSIDE, and otherwise the per-operand formulas. -/
def KeepRegionClaimedC1 (type : CombineAs) (opA : Bool)
    (shell orig : SShellClass) : Bool :=
  let inShell : Bool := shell = SShellClass.INSIDE
  let inSame : Bool := shell = SShellClass.COINC_SAME
  let inOpp : Bool := shell = SShellClass.COINC_OPP
  let inFace : Bool := inSame || inOpp
  if orig = SShellClass.OUTSIDE then false
  else
    match type with
    | CombineAs.UNION =>
        if opA then !inShell && !inFace
        else (!inShell && !inFace) || inSame
    | CombineAs.DIFFERENCE =>
        if opA then !inShell && !inFace
        else (inShell && !inFace) || inSame
    | CombineAs.ASSEMBLE => false

/-- Truth table of claim C1 amended: KeepRegion keeps nothing unless orig is
INSIDE (not merely distinct from OUTSIDE); for orig = INSIDE the
per-operand formulas are as the claim states them. -/
def KeepRegionAmendedC1 (type : CombineAs) (opA : Bool)
    (shell orig : SShellClass) : Bool :=
  let inShell : Bool := shell = SShellClass.INSIDE
  let inSame : Bool := shell = SShellClass.COINC_SAME
  let inOpp : Bool := shell = SShellClass.COINC_OPP
  let inFace : Bool := inSame || inOpp
  if orig ≠ SShellClass.INSIDE then false
  else
    match type with
    | CombineAs.UNION =>
        if opA then !inShell && !inFace
        else (!inShell && !inFace) || inSame
    | CombineAs.DIFFERENCE =>
        if opA then !inShell && !inFace
        else (inShell && !inFace) || inSame
    | CombineAs.ASSEMBLE => false

/-! ## The UV BSP (SBspUv, boolean.cpp lines 768-945)

Only the query side of the BSP is embedded (ClassifyPoint, the more-chain
walk, MinimumDistanceToEdge), since the claims are about queries.  Distances
are carried in squared form: the source compares nonnegative distances
against nonnegative tolerances and takes minima, and both operations commute
with squaring.  The signed distance of ScaledSignedDistanceToLine is carried
as the unnormalized dot product together with the squared norm of the
supporting segment, so its sign tests and its epsilon tests can be expressed
without square roots. -/

/-- SBspUv::Class from boolean.cpp. -/
inductive SBspUvClass where
  | INSIDE
  | OUTSIDE
  | EDGE_PARALLEL
  | EDGE_ANTIPARALLEL
  | EDGE_OTHER
deriving DecidableEq, Repr

/-- Modelled from the spec: the only data of the external surface collaborator
consumed by the BSP is the pair of tangent-vector magnitudes at the query
point (SSurface::TangentsAt followed by Magnitude, in ScalePoints). -/
structure SrfGeom where
  scaleAt : Point2d → ℚ × ℚ

/-- The surface used in concrete witnesses: unit parameterization, so scaling
is the identity. -/
def srfUnit : SrfGeom := ⟨fun _ => (1, 1)⟩

/-- SBspUv from boolean.cpp: node segment (a, b), children pos and neg, and
the more chain of coincident segments.  Null pointers are the nil
constructor. -/
inductive SBspUv where
  | nil
  | node (a b : Point2d) (pos neg more : SBspUv)
deriving DecidableEq, Repr

/-- SBspUv::ScalePoints (boolean.cpp lines 804-812): scale the query point
and the two segment points by the tangent magnitudes at the query point. -/
def ScalePoints (srf : SrfGeom) (pt a b : Point2d) :
    Point2d × Point2d × Point2d :=
  let m := srf.scaleAt pt
  (⟨pt.x * m.1, pt.y * m.2⟩, ⟨a.x * m.1, a.y * m.2⟩, ⟨b.x * m.1, b.y * m.2⟩)

/-- Unnormalized numerator of SBspUv::ScaledSignedDistanceToLine (boolean.cpp
lines 814-823): the dot of the scaled query against the unnormalized normal
of the scaled segment, minus the line offset.  The signed distance of the
source is this value divided by the square root of ScaledSignedDistNormSq. -/
def ScaledSignedDistRaw (srf : SrfGeom) (pt a b : Point2d) : ℚ :=
  let s := ScalePoints srf pt a b
  let n := (s.2.2.Minus s.2.1).Normal
  s.1.Dot n - s.2.1.Dot n

/-- Squared norm of the scaled supporting segment, the square of the
normalization factor hidden in WithMagnitude(1). -/
def ScaledSignedDistNormSq (srf : SrfGeom) (pt a b : Point2d) : ℚ :=
  let s := ScalePoints srf pt a b
  (s.2.2.Minus s.2.1).MagSquared

/-- Test fabs(sdist) < eps on the scaled signed distance.  A degenerate
supporting segment makes WithMagnitude(1) return the zero vector in the
source, so the signed distance is zero and the test succeeds. -/
def sdistAbsLt (srf : SrfGeom) (pt a b : Point2d) (eps : ℚ) : Bool :=
  let s2 := ScaledSignedDistNormSq srf pt a b
  if s2 = 0 then true
  else decide ((ScaledSignedDistRaw srf pt a b) ^ 2 < eps ^ 2 * s2)

/-- Test sdist > 0 on the scaled signed distance (degenerate segment gives a
zero distance, which is not positive). -/
def sdistPos (srf : SrfGeom) (pt a b : Point2d) : Bool :=
  let s2 := ScaledSignedDistNormSq srf pt a b
  if s2 = 0 then false
  else decide (0 < ScaledSignedDistRaw srf pt a b)

/-- Modelled from the spec: Point2d::DistanceToLine of util.cpp, in squared
form.  Distance from the point to the line through p0 with direction dp; in
segment mode points beyond the ends are measured from the nearer endpoint.
A degenerate direction yields the VERY_POSITIVE sentinel. -/
def Point2d.DistanceToLineSq (pt p0 dp : Point2d) (asSegment : Bool) : ℚ :=
  let m := dp.MagSquared
  if m = 0 then VERY_POSITIVE_SQ
  else
    let t := (pt.Minus p0).Dot dp / m
    if asSegment && decide (t < 0) then (pt.Minus p0).MagSquared
    else if asSegment && decide (t > 1) then
      (pt.Minus (p0.Plus dp)).MagSquared
    else (pt.Minus (p0.Plus (dp.ScaledBy t))).MagSquared

/-- SBspUv::ScaledDistanceToLine (boolean.cpp lines 825-831) in squared form:
scale the three inputs, then measure the point against the line through the
scaled a with the scaled direction b. -/
def ScaledDistanceToLineSq (srf : SrfGeom) (pt a b : Point2d)
    (asSegment : Bool) : ℚ :=
  let s := ScalePoints srf pt a b
  Point2d.DistanceToLineSq s.1 s.2.1 s.2.2 asSegment

/-- The while(f) walk of SBspUv::ClassifyPoint (boolean.cpp lines 894-909):
search the node and its more chain for a segment the query point lies on;
when found, compare the reference point eb against the supporting line to
produce a parallel, antiparallel or crossing verdict. -/
def chainWalk (p eb : Point2d) (srf : SrfGeom) : SBspUv → Option SBspUvClass
  | SBspUv.nil => none
  | SBspUv.node fa fb _ _ more =>
    let ba := fb.Minus fa
    if ScaledDistanceToLineSq srf p fa ba true < LENGTH_EPS ^ 2 then
      if ScaledDistanceToLineSq srf eb fa ba false < LENGTH_EPS ^ 2 then
        if ba.Dot (eb.Minus p) > 0 then some SBspUvClass.EDGE_PARALLEL
        else some SBspUvClass.EDGE_ANTIPARALLEL
      else some SBspUvClass.EDGE_OTHER
    else chainWalk p eb srf more

/-- SBspUv::ClassifyPoint (boolean.cpp lines 890-922).  The nil case is never
reached by the source, which guards every call on a null check; OUTSIDE is
the value those guards substitute.  In the on-line branch the source
computes the classifications of both children, prints a diagnostic when they
disagree, and returns the neg one (OUTSIDE when neg is null, INSIDE being
substituted only into the unused pos value). -/
def ClassifyPoint : SBspUv → Point2d → Point2d → SrfGeom → SBspUvClass
  | SBspUv.nil, _, _, _ => SBspUvClass.OUTSIDE
  | SBspUv.node a b pos neg more, p, eb, srf =>
    if sdistAbsLt srf p a b LENGTH_EPS then
      match chainWalk p eb srf (SBspUv.node a b pos neg more) with
      | some c => c
      | none =>
        let c1 : SBspUvClass :=
          match neg with
          | SBspUv.nil => SBspUvClass.OUTSIDE
          | _ => ClassifyPoint neg p eb srf
        let c2 : SBspUvClass :=
          match pos with
          | SBspUv.nil => SBspUvClass.INSIDE
          | _ => ClassifyPoint pos p eb srf
        let _mismatchDiagnostic := decide (c1 ≠ c2)
        c1
    else if sdistPos srf p a b then
      match pos with
      | SBspUv.nil => SBspUvClass.INSIDE
      | _ => ClassifyPoint pos p eb srf
    else
      match neg with
      | SBspUv.nil => SBspUvClass.OUTSIDE
      | _ => ClassifyPoint neg p eb srf

/-- The value of the on-line branch of ClassifyPoint as a function of the neg
child: the classification of the neg child when one exists and OUTSIDE
otherwise (the null-pointer default of the source). -/
def negChildClass (neg : SBspUv) (p eb : Point2d) (srf : SrfGeom) :
    SBspUvClass :=
  match neg with
  | SBspUv.nil => SBspUvClass.OUTSIDE
  | _ => ClassifyPoint neg p eb srf

/-- SBspUv::MinimumDistanceToEdge (boolean.cpp lines 935-945) in squared
form: the minimum over this segment and both children, VERY_POSITIVE where a
child is missing.  The more chain is not visited, as in the source. -/
def MinimumDistanceToEdgeSq : SBspUv → Point2d → SrfGeom → ℚ
  | SBspUv.nil, _, _ => VERY_POSITIVE_SQ
  | SBspUv.node a b pos neg _more, p, srf =>
    let dn := match neg with
      | SBspUv.nil => VERY_POSITIVE_SQ
      | _ => MinimumDistanceToEdgeSq neg p srf
    let dp := match pos with
      | SBspUv.nil => VERY_POSITIVE_SQ
      | _ => MinimumDistanceToEdgeSq pos p srf
    let s := ScalePoints srf p a b
    let d := Point2d.DistanceToLineSq s.1 s.2.1 (s.2.2.Minus s.2.1) true
    min d (min dn dp)

/-! ## Keep decision for intersection points in curve splitting
(SCurve::MakeCopySplitAgainst, boolean.cpp lines 69-91) -/

/-- Classification of the projected intersection point by the generating
surface BSP (boolean.cpp line 77): a surface without a BSP classifies as
OUTSIDE, and the reference point passed is the dummy origin. -/
def splitClass (bsp : SBspUv) (puv : Point2d) (srf : SrfGeom) : SBspUvClass :=
  match bsp with
  | SBspUv.nil => SBspUvClass.OUTSIDE
  | t => ClassifyPoint t puv ⟨0, 0⟩ srf

/-- Minimum squared distance to the trim edges used by the split keep
decision (boolean.cpp lines 79-80): the VERY_POSITIVE sentinel when the
surface has no BSP. -/
def splitMinDistSq (bsp : SBspUv) (puv : Point2d) (srf : SrfGeom) : ℚ :=
  match bsp with
  | SBspUv.nil => VERY_POSITIVE_SQ
  | t => MinimumDistanceToEdgeSq t puv srf

/-- The keep decision of boolean.cpp lines 76-85 for an intersection point
that survived the srfA/srfB rejection: drop exactly when the point
classifies OUTSIDE and lies farther than the chord tolerance from the trim
edges.  chordTol is the configured SS.ChordTolMm(), compared in squared
form. -/
def splitInterKeep (bsp : SBspUv) (puv : Point2d) (srf : SrfGeom)
    (chordTol : ℚ) : Bool :=
  let c := splitClass bsp puv srf
  if c = SBspUvClass.OUTSIDE then
    if splitMinDistSq bsp puv srf > chordTol ^ 2 then false else true
  else true

/-- Keep predicate of claim C2 written as the claim states it: kept exactly
when classified INSIDE, or classified OUTSIDE within the chord tolerance of
the trim edges; dropped for every other classification outcome. -/
def splitKeepClaimedC2 (bsp : SBspUv) (puv : Point2d) (srf : SrfGeom)
    (chordTol : ℚ) : Bool :=
  decide (splitClass bsp puv srf = SBspUvClass.INSIDE) ||
  (decide (splitClass bsp puv srf = SBspUvClass.OUTSIDE) &&
   decide (splitMinDistSq bsp puv srf ≤ chordTol ^ 2))

/-! ## Choosing points (SSurface::MakeCopyTrimAgainst, boolean.cpp lines
485-503) -/

/-- Modelled from the spec: SEdge of polygon.h, an edge of the local scratch
lists with two endpoints and the two integer auxiliaries (originating curve
id and direction flag); the tag bit is not needed by the incidence count. -/
structure SEdge where
  a : Vector
  b : Vector
  auxA : ℤ
  auxB : ℤ
deriving DecidableEq, Repr

/-- Modelled from the spec: SPoint of polygon.h, a stored point with an
integer tag used here as an incidence counter. -/
structure SPoint where
  p : Vector
  tag : ℤ
deriving DecidableEq, Repr

/-- Modelled from the spec: SPointList::IncrementTagFor(v) of polygon.cpp
increments the tag of the first stored point that Equals v, or appends a
fresh record with tag 1 when none does. -/
def IncrementTagFor : List SPoint → Vector → List SPoint
  | [], v => [⟨v, 1⟩]
  | sp :: rest, v =>
    if sp.p.Equals v then { sp with tag := sp.tag + 1 } :: rest
    else sp :: IncrementTagFor rest v

/-- The order in which the two incidence loops of MakeCopyTrimAgainst
(boolean.cpp lines 487-494) feed endpoints to IncrementTagFor: every orig
edge contributes its two endpoints, then every inter edge does. -/
def endpointStream (orig inter : List SEdge) : List Vector :=
  (orig ++ inter).flatMap fun se => [se.a, se.b]

/-- The incidence accumulation over both edge lists (boolean.cpp lines
485-494). -/
def choosingTags (orig inter : List SEdge) : List SPoint :=
  (endpointStream orig inter).foldl IncrementTagFor []

/-- The choosing-point set (boolean.cpp lines 495-503): records whose
incidence count is exactly two are retagged 1 and all others 0, and
RemoveTagged then deletes every record with a nonzero tag. -/
def choosingPoints (orig inter : List SEdge) : List SPoint :=
  let retagged := (choosingTags orig inter).map fun sp =>
    if sp.tag = 2 then { sp with tag := 1 } else { sp with tag := 0 }
  retagged.filter fun sp => decide (sp.tag = 0)

/-! ## Curve splitting (SCurve::MakeCopySplitAgainst, boolean.cpp lines
27-126) -/

/-- SCurvePt of surface.h (modelled from the spec): one sampled pwl point
with its tag and vertex flag. -/
structure SCurvePt where
  tag : ℤ
  p : Vector
  vertex : Bool
deriving DecidableEq, Repr

/-- SCurve::Source from surface.h (modelled from the spec): a curve comes
from operand A, operand B, or is an intersection curve. -/
inductive SCurveSource where
  | A
  | B
  | INTERSECTION
deriving DecidableEq, Repr

/-- SCurve of surface.h (modelled from the spec), restricted to the fields
the Boolean code reads or writes: its handle, the rewriting slot newH, the
two bounding surface handles, the source, the exactness flag and the pwl
points. -/
structure SCurve where
  h : ℕ
  newH : ℕ
  surfA : ℕ
  surfB : ℕ
  source : SCurveSource
  isExact : Bool
  pts : List SCurvePt
deriving DecidableEq, Repr

/-- SInter of surface.h (modelled from the spec): an intersection record with
the 3D point, the generating surface (identified by handle here, where the
source compares pointers) and a tag. -/
structure SInter where
  p : Vector
  srf : ℕ
  tag : ℤ
deriving DecidableEq, Repr

/-- Modelled from the spec: the external collaborators consumed by
SCurve::MakeCopySplitAgainst, bundled.  inters is the combined output of the
AllPointsIntersecting calls against the two opposing shells for one pwl
segment; proj is ClosestPointTo on the generating surface; bspOf and srfOf
give that surface's classifying BSP and tangent magnitudes; refine is the
composition of PointOnSurfaces(srfA, srfB) with PointAt; chordTol is the
configured SS.ChordTolMm(). -/
structure SplitCtx where
  inters : Vector → Vector → List SInter
  proj : ℕ → Vector → Point2d
  bspOf : ℕ → SBspUv
  srfOf : ℕ → SrfGeom
  refine : ℕ → ℕ → ℕ → Point2d → Vector
  chordTol : ℚ

/-- Insertion step of the order-by-parameter sort. -/
def insertSorted (key : SInter → ℚ) (x : SInter) :
    List SInter → List SInter
  | [] => [x]
  | y :: rest =>
    if key x < key y then x :: y :: rest else y :: insertSorted key x rest

/-- Modelled from the spec: the std::sort call of boolean.cpp lines 96-103
ordering intersections by projected parameter along the chord.  std::sort
leaves the order of tied keys unspecified; this model fixes a stable
insertion sort, which is one of the permitted outcomes. -/
def sortByKey (key : SInter → ℚ) : List SInter → List SInter
  | [] => []
  | x :: rest => insertSorted key x (sortByKey key rest)

/-- The emission loop of boolean.cpp lines 105-118: walk the sorted
intersections, adding a vertex point for each one that does not repeat the
previously seen position (prev starts at the VERY_POSITIVE sentinel). -/
def dedupEmit : Vector → List SInter → List SCurvePt
  | _, [] => []
  | prevP, pi :: rest =>
    if prevP.Equals pi.p then dedupEmit pi.p rest
    else ⟨0, pi.p, true⟩ :: dedupEmit pi.p rest

/-- One iteration of the splitting loop of SCurve::MakeCopySplitAgainst
(boolean.cpp lines 40-119) for the pwl segment from prev to cur: collect the
intersections, tag those on srfA or srfB and those rejected by the keep
decision, refine the kept ones, drop the tagged ones, sort along the chord,
and emit subdivision points with duplicate suppression. -/
def processSeg (ctx : SplitCtx) (srfA srfB : ℕ) (prev cur : Vector) :
    List SCurvePt :=
  let il := ctx.inters prev cur
  let tagged := il.map fun pi =>
    if pi.srf = srfA ∨ pi.srf = srfB then { pi with tag := 1 }
    else
      let puv := ctx.proj pi.srf pi.p
      if splitInterKeep (ctx.bspOf pi.srf) puv (ctx.srfOf pi.srf)
          ctx.chordTol then
        { pi with tag := 0, p := ctx.refine pi.srf srfA srfB puv }
      else { pi with tag := 1 }
  let kept := tagged.filter fun pi => decide (pi.tag = 0)
  let dir := cur.Minus prev
  let sorted := sortByKey (fun pi => (pi.p.Minus prev).DivProjected dir) kept
  dedupEmit (Vector.From VERY_POSITIVE 0 0) sorted

/-- The outer loop of MakeCopySplitAgainst over the successive pwl points:
for each further point, first the subdivision points of the segment ending
there, then the point itself. -/
def splitLoop (ctx : SplitCtx) (srfA srfB : ℕ) :
    Vector → List SCurvePt → List SCurvePt
  | _, [] => []
  | prevP, p :: rest =>
    processSeg ctx srfA srfB prevP p.p ++
      p :: splitLoop ctx srfA srfB p.p rest

/-- SCurve::MakeCopySplitAgainst (boolean.cpp lines 27-126): the result is a
copy of the curve whose pwl list starts with the first original point and
continues with the split segments; splitting an empty curve is a fatal
assertion, modelled as none. -/
def SCurve.MakeCopySplitAgainst (ctx : SplitCtx) (srfA srfB : ℕ)
    (c : SCurve) : Option SCurve :=
  match c.pts with
  | [] => none
  | p0 :: rest => some { c with pts := p0 :: splitLoop ctx srfA srfB p0.p rest }

/-- Interleaving of a point list with gap lists: each gap list is inserted
strictly between two consecutive points, never before the first or after the
last. -/
def interleave : List SCurvePt → List (List SCurvePt) → List SCurvePt
  | [], _ => []
  | q :: qs, [] => q :: qs
  | q :: qs, g :: gs => q :: (g ++ interleave qs gs)

/-- Concrete split context for the C5 witness: no intersections at all. -/
def ctxC5 : SplitCtx :=
  ⟨fun _ _ => [], fun _ _ => ⟨0, 0⟩, fun _ => SBspUv.nil, fun _ => srfUnit,
   fun _ _ _ _ => ⟨0, 0, 0⟩, 1⟩

/-- Concrete two-point curve for the C5 witness. -/
def cC5 : SCurve :=
  ⟨0, 0, 0, 1, SCurveSource.A, true,
   [⟨0, ⟨0, 0, 0⟩, true⟩, ⟨0, ⟨1, 0, 0⟩, true⟩]⟩

/-- Concrete edges for the C8 witness: two segments sharing the endpoint
(1, 0, 0). -/
def eC8a : SEdge := ⟨⟨0, 0, 0⟩, ⟨1, 0, 0⟩, 0, 0⟩

/-- Second concrete edge for the C8 witness. -/
def eC8b : SEdge := ⟨⟨1, 0, 0⟩, ⟨2, 0, 0⟩, 0, 0⟩

/-! ## Shells, handles, and the orchestrators (boolean.cpp lines 601-766)

The shells are embedded with the fields the Boolean code reads or writes.
Handles are natural numbers; IdList::AddAndAssignId assigns MaximumId()+1
and appends, and IdList::FindById is a fatal assertion on a missing id,
modelled as Option.  The purely geometric work inside
SSurface::MakeCopyTrimAgainst (reversal, edge assembly, classification and
the final TrimFromEdgeList) only determines the new trim list and the
booleanFailed bit, and is abstracted as an oracle; the handle bookkeeping
around it is embedded faithfully. -/

/-- STrimBy of surface.h (modelled from the spec): a curve reference with
start and finish points and the backwards flag. -/
structure STrimBy where
  curve : ℕ
  start : Vector
  finish : Vector
  backwards : Bool
deriving DecidableEq, Repr

/-- SSurface of surface.h (modelled from the spec), restricted to the fields
the Boolean code reads or writes: handle, rewriting slot newH, trim list,
classifying BSP and xyz edge list. -/
structure SSurface where
  h : ℕ
  newH : ℕ
  trim : List STrimBy
  bsp : SBspUv
  edges : List SEdge
deriving DecidableEq, Repr

/-- SShell of surface.h (modelled from the spec): surfaces, curves, and the
sticky failure flag. -/
structure SShell where
  surface : List SSurface
  curve : List SCurve
  booleanFailed : Bool
deriving DecidableEq, Repr

/-- Largest element of a list of naturals (zero when empty). -/
def maxNat (ns : List ℕ) : ℕ := ns.foldr max 0

/-- Modelled from the spec: IdList::MaximumId, generic in the handle
accessor. -/
def maxIdBy {α : Type} (getH : α → ℕ) (l : List α) : ℕ :=
  maxNat (l.map getH)

/-- Modelled from the spec: IdList::AddAndAssignId, generic in the handle
accessor and setter: assign MaximumId()+1 as the handle, append, and return
the new handle. -/
def addBy {α : Type} (getH : α → ℕ) (setH : ℕ → α → α) (l : List α)
    (x : α) : List α × ℕ :=
  let id := maxIdBy getH l + 1
  (l ++ [setH id x], id)

/-- AddAndAssignId on a curve list. -/
def addCurve (l : List SCurve) (c : SCurve) : List SCurve × ℕ :=
  addBy (fun c => c.h) (fun id c => { c with h := id }) l c

/-- AddAndAssignId on a surface list. -/
def addSurface (l : List SSurface) (s : SSurface) : List SSurface × ℕ :=
  addBy (fun s => s.h) (fun id s => { s with h := id }) l s

/-- Modelled from the spec: IdList::FindById on curves, fatal when absent
(none here). -/
def findCurve (l : List SCurve) (id : ℕ) : Option SCurve :=
  l.find? fun c => decide (c.h = id)

/-- Modelled from the spec: IdList::FindById on surfaces. -/
def findSurface (l : List SSurface) (id : ℕ) : Option SSurface :=
  l.find? fun s => decide (s.h = id)

/-- Modelled from the spec: SCurve::GetSurfaceA resolves the operand shell
owning surfA from the curve source: curves from A and intersection curves
look in shell a, curves from B in shell b. -/
def GetSurfaceA (a b : SShell) (sc : SCurve) : Option SSurface :=
  match sc.source with
  | SCurveSource.A => findSurface a.surface sc.surfA
  | SCurveSource.B => findSurface b.surface sc.surfA
  | SCurveSource.INTERSECTION => findSurface a.surface sc.surfA

/-- Modelled from the spec: SCurve::GetSurfaceB; intersection curves have
surfB in shell b. -/
def GetSurfaceB (a b : SShell) (sc : SCurve) : Option SSurface :=
  match sc.source with
  | SCurveSource.A => findSurface a.surface sc.surfB
  | SCurveSource.B => findSurface b.surface sc.surfB
  | SCurveSource.INTERSECTION => findSurface b.surface sc.surfB

/-- SShell::RewriteSurfaceHandlesForCurves (boolean.cpp lines 636-642):
rewrite every result curve's surfA and surfB to the newH of its owning
operand surfaces. -/
def RewriteSurfaceHandlesForCurves (a b : SShell) (shell : SShell) :
    Option SShell := do
  let newCurves ← shell.curve.mapM fun sc => do
    let sA ← GetSurfaceA a b sc
    let sB ← GetSurfaceB a b sc
    pure { sc with surfA := sA.newH, surfB := sB.newH }
  pure { shell with curve := newCurves }

/-- SShell::CleanupAfterBoolean (boolean.cpp lines 624-629): clear each
surface's xyz edge list, and nothing else. -/
def CleanupAfterBoolean (shell : SShell) : SShell :=
  { shell with surface := shell.surface.map fun ss => { ss with edges := [] } }

/-- Modelled from the spec: the data SSurface::MakeClassifyingBsp stores per
surface, produced by the external MakeEdgesInto and by SBspUv::From over its
output; abstracted as functions of the surface since no embedded claim
inspects the values. -/
structure BspOracle where
  mkBsp : SSurface → SBspUv
  mkEdges : SSurface → List SEdge

/-- SShell::MakeClassifyingBsps (boolean.cpp lines 750-766): store a fresh
classifying BSP and xyz edge list on every surface of the shell. -/
def MakeClassifyingBsps (oracle : BspOracle) (shell : SShell) : SShell :=
  { shell with surface := shell.surface.map fun ss =>
      { ss with bsp := oracle.mkBsp ss, edges := oracle.mkEdges ss } }

/-- The loop body of SShell::CopyCurvesSplitAgainst (boolean.cpp lines
128-140), threading the result curve list: for each curve of the parent,
resolve its bounding surfaces (fatal when missing), split it, stamp the
source, add it to the result with a fresh id, and record that id in the
parent curve's newH. -/
def copyCurvesGo (ctx : SplitCtx) (opA : Bool) (surfaces : List SSurface) :
    List SCurve → List SCurve → Option (List SCurve × List SCurve)
  | intoCurves, [] => some (intoCurves, [])
  | intoCurves, sc :: rest => do
    let _sA ← findSurface surfaces sc.surfA
    let _sB ← findSurface surfaces sc.surfB
    let scn ← SCurve.MakeCopySplitAgainst ctx sc.surfA sc.surfB sc
    let scn2 := { scn with
      source := if opA then SCurveSource.A else SCurveSource.B }
    let added := addCurve intoCurves scn2
    let step ← copyCurvesGo ctx opA surfaces added.1 rest
    pure (step.1, { sc with newH := added.2 } :: step.2)

/-- SShell::CopyCurvesSplitAgainst (boolean.cpp lines 128-140): returns the
grown result shell and the parent shell with newH recorded on its curves. -/
def CopyCurvesSplitAgainst (ctx : SplitCtx) (opA : Bool)
    (parent into : SShell) : Option (SShell × SShell) := do
  let r ← copyCurvesGo ctx opA parent.surface into.curve parent.curve
  pure ({ into with curve := r.1 }, { parent with curve := r.2 })

/-- Appending a list of curves through AddAndAssignId. -/
def addCurvesList : List SCurve → List SCurve → List SCurve
  | intoCurves, [] => intoCurves
  | intoCurves, c :: rest => addCurvesList (addCurve intoCurves c).1 rest

/-- Modelled from the spec: SShell::MakeIntersectionCurvesAgainst (boolean.cpp
lines 611-622) lets the external surface-surface intersector append zero or
more intersection curves to the result shell; the curves it produces are a
parameter of the model, added with fresh ids. -/
def MakeIntersectionCurvesAgainst (interCurves : List SCurve)
    (into : SShell) : SShell :=
  { into with curve := addCurvesList into.curve interCurves }

/-- The short-segment removal pass of MakeFromBoolean (boolean.cpp lines
712-718): resolve both bounding surfaces of every result curve (fatal when
missing) and let the external SCurve::RemoveShortSegments rewrite its pwl
points, abstracted as the rssPts parameter. -/
def removeShortSegments (rssPts : SCurve → List SCurvePt) (a b : SShell)
    (into : SShell) : Option SShell := do
  let newCurves ← into.curve.mapM fun sc => do
    let _sA ← GetSurfaceA a b sc
    let _sB ← GetSurfaceB a b sc
    pure { sc with pts := rssPts sc }
  pure { into with curve := newCurves }

/-- Modelled from the spec: the geometric outcome of
SSurface::MakeCopyTrimAgainst, abstracted — the final trim list produced by
TrimFromEdgeList over the kept chains, and whether AssemblePolygon failed on
the final edge set. -/
structure TrimOracle where
  trims : SSurface → List STrimBy
  failed : SSurface → Bool

/-- SSurface::MakeCopyTrimAgainst (boolean.cpp lines 396-599) at the handle
level: the initial trim copy rewrites each trim's curve handle through the
split curve's newH, with FindById fatal on a missing handle; everything
after that only determines the final trim list and possibly sets the result
shell's booleanFailed, both taken from the oracle. -/
def MakeCopyTrimAgainst (oracle : TrimOracle) (parent : SShell)
    (ss : SSurface) : Option (SSurface × Bool) := do
  let _rewritten ← ss.trim.mapM fun stb => do
    let c ← findCurve parent.curve stb.curve
    pure { stb with curve := c.newH }
  pure ({ ss with trim := oracle.trims ss }, oracle.failed ss)

/-- The loop body of SShell::CopySurfacesTrimAgainst (boolean.cpp lines
601-609): trim each parent surface, add the copy to the result with a fresh
id, record that id in the parent surface's newH, and accumulate the failure
flag. -/
def copySurfacesGo (oracle : TrimOracle) (parent : SShell) :
    List SSurface → List SSurface → Bool →
      Option (List SSurface × List SSurface × Bool)
  | intoSurfs, [], failed => some (intoSurfs, [], failed)
  | intoSurfs, ss :: rest, failed => do
    let step1 ← MakeCopyTrimAgainst oracle parent ss
    let added := addSurface intoSurfs step1.1
    let step2 ← copySurfacesGo oracle parent added.1 rest (failed || step1.2)
    pure (step2.1, { ss with newH := added.2 } :: step2.2.1, step2.2.2)

/-- SShell::CopySurfacesTrimAgainst (boolean.cpp lines 601-609). -/
def CopySurfacesTrimAgainst (oracle : TrimOracle) (parent into : SShell) :
    Option (SShell × SShell) := do
  let r ← copySurfacesGo oracle parent into.surface parent.surface
    into.booleanFailed
  pure ({ into with surface := r.1, booleanFailed := r.2.2 },
        { parent with surface := r.2.1 })

/-- The external and geometric inputs of one MakeFromBoolean run: the two
splitting contexts (curves of a against shell b and conversely), the BSP
oracles of the two MakeClassifyingBsps passes, the intersection curves the
external intersector produces, the RemoveShortSegments rewrite, and the two
trimming oracles. -/
structure BoolCtx where
  splitA : SplitCtx
  splitB : SplitCtx
  bspsA1 : BspOracle
  bspsB1 : BspOracle
  interCurves : List SCurve
  rssPts : SCurve → List SCurvePt
  bspsA2 : BspOracle
  bspsB2 : BspOracle
  trimsA : TrimOracle
  trimsB : TrimOracle

/-- SShell::MakeFromBoolean (boolean.cpp lines 696-745) on a fresh result
shell, returning the result together with both operand shells as the run
leaves them.  The combine type only steers the abstracted trimming
geometry.  The sentinel I of the source scopes debug output only and is
omitted. -/
def MakeFromBoolean (bc : BoolCtx) (a b : SShell) (_type : CombineAs) :
    Option (SShell × SShell × SShell) := do
  let into0 : SShell := { surface := [], curve := [], booleanFailed := false }
  let a1 := MakeClassifyingBsps bc.bspsA1 a
  let b1 := MakeClassifyingBsps bc.bspsB1 b
  let s1 ← CopyCurvesSplitAgainst bc.splitA true a1 into0
  let s2 ← CopyCurvesSplitAgainst bc.splitB false b1 s1.1
  let into3 := MakeIntersectionCurvesAgainst bc.interCurves s2.1
  let into4 ← removeShortSegments bc.rssPts s1.2 s2.2 into3
  let a3 := CleanupAfterBoolean s1.2
  let b3 := CleanupAfterBoolean s2.2
  let a4 := MakeClassifyingBsps bc.bspsA2 a3
  let b4 := MakeClassifyingBsps bc.bspsB2 b3
  let s5 ← CopySurfacesTrimAgainst bc.trimsA a4 into4
  let s6 ← CopySurfacesTrimAgainst bc.trimsB b4 s5.1
  let into7 ← RewriteSurfaceHandlesForCurves s5.2 s6.2 s6.1
  let a6 := CleanupAfterBoolean s5.2
  let b6 := CleanupAfterBoolean s6.2
  pure (into7, a6, b6)

/-- The curve loop of SShell::MakeFromAssemblyOf (boolean.cpp lines 661-672):
copy each curve through the identity transformation, stamp the source, add
it to the result with a fresh id and record that id in the operand curve's
newH. -/
def assemblyCopyCurves (isA : Bool) :
    List SCurve → List SCurve → List SCurve × List SCurve
  | intoCurves, [] => (intoCurves, [])
  | intoCurves, c :: rest =>
    let cn := { c with
      source := if isA then SCurveSource.A else SCurveSource.B }
    let added := addCurve intoCurves cn
    let step := assemblyCopyCurves isA added.1 rest
    (step.1, { c with newH := added.2 } :: step.2)

/-- The surface loop of SShell::MakeFromAssemblyOf (boolean.cpp lines
674-689): copy each surface, rewrite its trim curve handles through the
operand curves' newH (fatal when a handle is missing), add it to the result
with a fresh id and record that id in the operand surface's newH.  abCurves
is the operand curve list after the curve loop, so newH is populated. -/
def assemblyCopySurfaces (abCurves : List SCurve) :
    List SSurface → List SSurface → Option (List SSurface × List SSurface)
  | intoSurfs, [] => some (intoSurfs, [])
  | intoSurfs, s :: rest => do
    let newTrims ← s.trim.mapM fun stb => do
      let c ← findCurve abCurves stb.curve
      pure { stb with curve := c.newH }
    let sn := { s with trim := newTrims }
    let added := addSurface intoSurfs sn
    let step ← assemblyCopySurfaces abCurves added.1 rest
    pure (step.1, { s with newH := added.2 } :: step.2)

/-- SShell::MakeFromAssemblyOf (boolean.cpp lines 651-694) on a fresh result
shell: copy curves of a then b, copy surfaces of a then b with trim handles
rewritten, then rewrite the curve-to-surface handles; booleanFailed is
cleared on entry and never set on this path. -/
def MakeFromAssemblyOf (a b : SShell) : Option (SShell × SShell × SShell) := do
  let stepA := assemblyCopyCurves true [] a.curve
  let stepB := assemblyCopyCurves false stepA.1 b.curve
  let a2 := { a with curve := stepA.2 }
  let b2 := { b with curve := stepB.2 }
  let sA ← assemblyCopySurfaces a2.curve [] a2.surface
  let sB ← assemblyCopySurfaces b2.curve sA.1 b2.surface
  let a3 := { a2 with surface := sA.2 }
  let b3 := { b2 with surface := sB.2 }
  let into : SShell :=
    { surface := sB.1, curve := stepB.1, booleanFailed := false }
  let into2 ← RewriteSurfaceHandlesForCurves a3 b3 into
  pure (into2, a3, b3)

/-- Concrete single-segment BSP for the C2 counterexample: the trim edge
from the origin to (1, 0). -/
def bspC2 : SBspUv := SBspUv.node ⟨0, 0⟩ ⟨1, 0⟩ SBspUv.nil SBspUv.nil SBspUv.nil

/-- The number of elements of a list carrying the handle k. -/
def countH {α : Type} (getH : α → ℕ) (l : List α) (k : ℕ) : ℕ :=
  (l.map getH).count k

/-- One list element carries the handle k, and k is inside the allocated id
range, so later AddAndAssignId calls cannot duplicate it. -/
def HasUniqueNat (ns : List ℕ) (k : ℕ) : Prop :=
  ns.count k = 1 ∧ k ≤ maxNat ns

/-- HasUniqueNat through a handle accessor. -/
def HasUniqueBy {α : Type} (getH : α → ℕ) (l : List α) (k : ℕ) : Prop :=
  HasUniqueNat (l.map getH) k

/-- The handle property of claim C4 for a result shell r and the two operand
shells as the operation leaves them: every operand curve or surface has a
newH carried by exactly one result curve or surface, and every result curve
has surfA and surfB resolving inside the result surface set. -/
def HandleSpec (r aOut bOut : SShell) : Prop :=
  (∀ sc ∈ aOut.curve ++ bOut.curve,
      countH (fun c : SCurve => c.h) r.curve sc.newH = 1) ∧
  (∀ ss ∈ aOut.surface ++ bOut.surface,
      countH (fun s : SSurface => s.h) r.surface ss.newH = 1) ∧
  (∀ sc ∈ r.curve,
      (∃ s ∈ r.surface, s.h = sc.surfA) ∧ (∃ s ∈ r.surface, s.h = sc.surfB))

/-- The empty shell, used as a concrete operand in witnesses. -/
def shellEmpty : SShell := ⟨[], [], false⟩

/-- Concrete shell for the C7 counterexample: one surface carrying scratch
state in every transient field (newH set, non-null BSP, nonempty edge
list). -/
def shellC7 : SShell := ⟨[⟨1, 7, [], bspC2, [eC8a]⟩], [], false⟩

/-- A trivial BSP oracle for witnesses. -/
def bspOracleTrivial : BspOracle := ⟨fun _ => SBspUv.nil, fun _ => []⟩

/-- A trivial trimming oracle for witnesses: keep the trims, never fail. -/
def trimOracleTrivial : TrimOracle := ⟨fun s => s.trim, fun _ => false⟩

/-- A trivial Boolean context for witnesses: no intersections, no
short-segment rewrites. -/
def bcTrivial : BoolCtx :=
  ⟨ctxC5, ctxC5, bspOracleTrivial, bspOracleTrivial, [], (fun c => c.pts),
   bspOracleTrivial, bspOracleTrivial, trimOracleTrivial, trimOracleTrivial⟩

/-- Concrete one-surface, one-curve shell for the C4 witness. -/
def aW : SShell :=
  ⟨[⟨1, 0, [], SBspUv.nil, []⟩],
   [⟨1, 0, 1, 1, SCurveSource.A, true, [⟨0, ⟨0, 0, 0⟩, true⟩]⟩], false⟩

/-- Pos-only child used by the C3 concrete inputs. -/
def posC3 : SBspUv :=
  SBspUv.node ⟨0, -1⟩ ⟨-2, -1⟩ SBspUv.nil SBspUv.nil SBspUv.nil

/-- Concrete BSP for the C3 counterexample: the root has only a pos child. -/
def bspC3 : SBspUv := SBspUv.node ⟨0, 0⟩ ⟨2, 0⟩ posC3 SBspUv.nil SBspUv.nil

end SlvsBool

namespace SlvsBool

/-- Claim C1 (counterexample): at type UNION, operand A, shell OUTSIDE and
orig COINC_SAME, the code returns false although the truth table of the
claim, whose otherwise-branch covers every orig other than OUTSIDE,
returns true. -/
theorem keepRegion_c1_counterexample :
    KeepRegion CombineAs.UNION true SShellClass.OUTSIDE SShellClass.COINC_SAME
      = some false ∧
    KeepRegionClaimedC1 CombineAs.UNION true SShellClass.OUTSIDE
      SShellClass.COINC_SAME = true := by
  decide

/-- Claim C1 (amended): for the union and difference combine types,
KeepRegion implements exactly the amended truth table, which returns false
whenever orig is not INSIDE and otherwise follows the per-operand formulas
of the claim. -/
theorem keepRegion_c1_amended (type : CombineAs) (opA : Bool)
    (shell orig : SShellClass)
    (h : type = CombineAs.UNION ∨ type = CombineAs.DIFFERENCE) :
    KeepRegion type opA shell orig
      = some (KeepRegionAmendedC1 type opA shell orig) := by
  revert h
  revert type opA shell orig
  decide

/-- Witness for keepRegion_c1_amended at a concrete input. -/
theorem keepRegion_c1_amended_witness :
    KeepRegion CombineAs.UNION true SShellClass.INSIDE SShellClass.INSIDE
      = some (KeepRegionAmendedC1 CombineAs.UNION true SShellClass.INSIDE
        SShellClass.INSIDE) :=
  keepRegion_c1_amended CombineAs.UNION true SShellClass.INSIDE
    SShellClass.INSIDE (Or.inl rfl)

/-- Claim C9: for the union and difference combine types, any operand flag
and any orig classification, a region lying on a coincident face with
opposed normals (COINC_OPP) is never kept. -/
theorem keepRegion_c9_coinc_opp (type : CombineAs) (opA : Bool)
    (orig : SShellClass)
    (h : type = CombineAs.UNION ∨ type = CombineAs.DIFFERENCE) :
    KeepRegion type opA SShellClass.COINC_OPP orig = some false := by
  revert h
  revert type opA orig
  decide

/-- Witness for keepRegion_c9_coinc_opp at a concrete input. -/
theorem keepRegion_c9_coinc_opp_witness :
    KeepRegion CombineAs.DIFFERENCE false SShellClass.COINC_OPP
      SShellClass.INSIDE = some false :=
  keepRegion_c9_coinc_opp CombineAs.DIFFERENCE false SShellClass.INSIDE
    (Or.inr rfl)

/-- Claim C6: KeepEdge is antisymmetric in its two sides, and holds exactly
when KeepRegion keeps the in-normal side and rejects the out-normal side.
Here L bundles (indir_shell, indir_orig) and R bundles
(outdir_shell, outdir_orig). -/
theorem keepEdge_c6_antisymmetry (type : CombineAs) (opA : Bool)
    (L R : SShellClass × SShellClass) (h : L ≠ R) :
    (KeepEdge type opA L.1 R.1 L.2 R.2 = some true →
      KeepEdge type opA R.1 L.1 R.2 L.2 = some false) ∧
    (KeepEdge type opA L.1 R.1 L.2 R.2 = some true ↔
      (KeepRegion type opA L.1 L.2 = some true ∧
       KeepRegion type opA R.1 R.2 = some false)) := by
  revert h
  revert type opA L R
  decide

/-- Witness for keepEdge_c6_antisymmetry at a concrete input. -/
theorem keepEdge_c6_antisymmetry_witness :
    (KeepEdge CombineAs.UNION true SShellClass.OUTSIDE SShellClass.INSIDE
        SShellClass.INSIDE SShellClass.INSIDE = some true →
      KeepEdge CombineAs.UNION true SShellClass.INSIDE SShellClass.OUTSIDE
        SShellClass.INSIDE SShellClass.INSIDE = some false) ∧
    (KeepEdge CombineAs.UNION true SShellClass.OUTSIDE SShellClass.INSIDE
        SShellClass.INSIDE SShellClass.INSIDE = some true ↔
      (KeepRegion CombineAs.UNION true SShellClass.OUTSIDE SShellClass.INSIDE
          = some true ∧
       KeepRegion CombineAs.UNION true SShellClass.INSIDE SShellClass.INSIDE
          = some false)) :=
  keepEdge_c6_antisymmetry CombineAs.UNION true
    (SShellClass.OUTSIDE, SShellClass.INSIDE)
    (SShellClass.INSIDE, SShellClass.INSIDE) (by decide)

/-- Claim C2 (counterexample): on the single-segment BSP, the point at the
middle of the trim edge classifies EDGE_ANTIPARALLEL, which the claim says
is dropped, yet the code keeps it. -/
theorem splitInterKeep_c2_counterexample :
    splitInterKeep bspC2 ⟨1/2, 0⟩ srfUnit 1 = true ∧
    splitClass bspC2 ⟨1/2, 0⟩ srfUnit = SBspUvClass.EDGE_ANTIPARALLEL ∧
    splitKeepClaimedC2 bspC2 ⟨1/2, 0⟩ srfUnit 1 = false := by
  refine ⟨?_, ?_, ?_⟩
  · norm_num [splitInterKeep, splitClass, splitMinDistSq, ClassifyPoint,
      chainWalk, sdistAbsLt, sdistPos, ScaledDistanceToLineSq,
      Point2d.DistanceToLineSq, ScalePoints, ScaledSignedDistRaw,
      ScaledSignedDistNormSq, Point2d.Dot, Point2d.Minus, Point2d.Plus,
      Point2d.Normal, Point2d.MagSquared, Point2d.ScaledBy, srfUnit, bspC2,
      LENGTH_EPS, VERY_POSITIVE_SQ, VERY_POSITIVE]
    exact Or.inl (by decide)
  · norm_num [splitClass, ClassifyPoint, chainWalk, sdistAbsLt, sdistPos,
      ScaledDistanceToLineSq, Point2d.DistanceToLineSq, ScalePoints,
      ScaledSignedDistRaw, ScaledSignedDistNormSq, Point2d.Dot, Point2d.Minus,
      Point2d.Plus, Point2d.Normal, Point2d.MagSquared, Point2d.ScaledBy,
      srfUnit, bspC2, LENGTH_EPS, VERY_POSITIVE_SQ, VERY_POSITIVE]
  · norm_num [splitKeepClaimedC2, splitClass, splitMinDistSq, ClassifyPoint,
      chainWalk, sdistAbsLt, sdistPos, ScaledDistanceToLineSq,
      Point2d.DistanceToLineSq, ScalePoints, ScaledSignedDistRaw,
      ScaledSignedDistNormSq, Point2d.Dot, Point2d.Minus, Point2d.Plus,
      Point2d.Normal, Point2d.MagSquared, Point2d.ScaledBy, srfUnit, bspC2,
      LENGTH_EPS, VERY_POSITIVE_SQ, VERY_POSITIVE]
    exact ⟨by decide, by simp⟩

/-- Claim C2 (amended): a surviving intersection point is kept exactly when
its UV projection classifies as anything other than OUTSIDE, or classifies
OUTSIDE with minimum scaled distance to the trim edges at most the chord
tolerance. -/
theorem splitInterKeep_c2_amended (bsp : SBspUv) (puv : Point2d)
    (srf : SrfGeom) (chordTol : ℚ) :
    splitInterKeep bsp puv srf chordTol = true ↔
      (splitClass bsp puv srf ≠ SBspUvClass.OUTSIDE ∨
       splitMinDistSq bsp puv srf ≤ chordTol ^ 2) := by
  by_cases hc : splitClass bsp puv srf = SBspUvClass.OUTSIDE <;>
    by_cases hd : splitMinDistSq bsp puv srf > chordTol ^ 2 <;>
      simp [splitInterKeep, hc, hd, not_lt, le_of_lt]
  · exact le_of_not_lt hd

/-- Claim C3 (counterexample): at the root of bspC3 the query point is within
LENGTH_EPS of the supporting line and on no segment of the chain, only the
pos child exists, yet ClassifyPoint answers OUTSIDE while the pos child
classifies the point INSIDE, so the result does not come from the existing
child. -/
theorem classifyPoint_c3_counterexample :
    sdistAbsLt srfUnit ⟨10, 0⟩ ⟨0, 0⟩ ⟨2, 0⟩ LENGTH_EPS = true ∧
    chainWalk ⟨10, 0⟩ ⟨0, 0⟩ srfUnit bspC3 = none ∧
    ClassifyPoint bspC3 ⟨10, 0⟩ ⟨0, 0⟩ srfUnit = SBspUvClass.OUTSIDE ∧
    ClassifyPoint posC3 ⟨10, 0⟩ ⟨0, 0⟩ srfUnit = SBspUvClass.INSIDE ∧
    ClassifyPoint bspC3 ⟨10, 0⟩ ⟨0, 0⟩ srfUnit ≠
      ClassifyPoint posC3 ⟨10, 0⟩ ⟨0, 0⟩ srfUnit := by
  have hroot : ClassifyPoint bspC3 ⟨10, 0⟩ ⟨0, 0⟩ srfUnit
      = SBspUvClass.OUTSIDE := by
    norm_num [ClassifyPoint, chainWalk, sdistAbsLt, sdistPos,
      ScaledDistanceToLineSq, Point2d.DistanceToLineSq, ScalePoints,
      ScaledSignedDistRaw, ScaledSignedDistNormSq, Point2d.Dot, Point2d.Minus,
      Point2d.Plus, Point2d.Normal, Point2d.MagSquared, Point2d.ScaledBy,
      srfUnit, bspC3, posC3, LENGTH_EPS, VERY_POSITIVE_SQ, VERY_POSITIVE]
  have hpos : ClassifyPoint posC3 ⟨10, 0⟩ ⟨0, 0⟩ srfUnit
      = SBspUvClass.INSIDE := by
    norm_num [ClassifyPoint, chainWalk, sdistAbsLt, sdistPos,
      ScaledDistanceToLineSq, Point2d.DistanceToLineSq, ScalePoints,
      ScaledSignedDistRaw, ScaledSignedDistNormSq, Point2d.Dot, Point2d.Minus,
      Point2d.Plus, Point2d.Normal, Point2d.MagSquared, Point2d.ScaledBy,
      srfUnit, posC3, LENGTH_EPS, VERY_POSITIVE_SQ, VERY_POSITIVE]
  refine ⟨?_, ?_, hroot, hpos, by rw [hroot, hpos]; decide⟩
  · norm_num [sdistAbsLt, ScalePoints, ScaledSignedDistRaw,
      ScaledSignedDistNormSq, Point2d.Dot, Point2d.Minus, Point2d.Normal,
      Point2d.MagSquared, srfUnit, LENGTH_EPS]
  · norm_num [chainWalk, ScaledDistanceToLineSq, Point2d.DistanceToLineSq,
      ScalePoints, Point2d.Dot, Point2d.Minus, Point2d.Plus, Point2d.Normal,
      Point2d.MagSquared, Point2d.ScaledBy, srfUnit, bspC3, posC3, LENGTH_EPS,
      VERY_POSITIVE_SQ, VERY_POSITIVE]

/-- Claim C3 (amended): when the query point is within LENGTH_EPS of the
supporting line of a node and lies on no segment of the node chain,
ClassifyPoint returns the neg child classification when neg exists and
OUTSIDE otherwise; the pos child is consulted only for the mismatch
diagnostic. -/
theorem classifyPoint_c3_amended (a b : Point2d) (pos neg more : SBspUv)
    (p eb : Point2d) (srf : SrfGeom)
    (h1 : sdistAbsLt srf p a b LENGTH_EPS = true)
    (h2 : chainWalk p eb srf (SBspUv.node a b pos neg more) = none) :
    ClassifyPoint (SBspUv.node a b pos neg more) p eb srf =
      negChildClass neg p eb srf := by
  cases neg <;> cases pos <;>
    (rw [ClassifyPoint] <;> (try rw [if_pos h1, h2]) <;>
      first
        | rfl
        | simp)

/-- Witness for classifyPoint_c3_amended at a concrete input: a root with no
children, where the result is OUTSIDE. -/
theorem classifyPoint_c3_amended_witness :
    ClassifyPoint (SBspUv.node ⟨0, 0⟩ ⟨2, 0⟩ SBspUv.nil SBspUv.nil SBspUv.nil)
      ⟨10, 0⟩ ⟨0, 0⟩ srfUnit = SBspUvClass.OUTSIDE :=
  classifyPoint_c3_amended ⟨0, 0⟩ ⟨2, 0⟩ SBspUv.nil SBspUv.nil SBspUv.nil
    ⟨10, 0⟩ ⟨0, 0⟩ srfUnit
    (by norm_num [sdistAbsLt, ScalePoints, ScaledSignedDistRaw,
      ScaledSignedDistNormSq, Point2d.Dot, Point2d.Minus, Point2d.Normal,
      Point2d.MagSquared, srfUnit, LENGTH_EPS])
    (by norm_num [chainWalk, ScaledDistanceToLineSq, Point2d.DistanceToLineSq,
      ScalePoints, Point2d.Dot, Point2d.Minus, Point2d.Plus, Point2d.Normal,
      Point2d.MagSquared, Point2d.ScaledBy, srfUnit, LENGTH_EPS,
      VERY_POSITIVE_SQ, VERY_POSITIVE])

theorem Vector.Equals_refl (v : Vector) : v.Equals v = true := by
  simp [Vector.Equals, Vector.Minus, Vector.MagSquared, Vector.Dot, LENGTH_EPS]

theorem incrementTagFor_spec (v : Vector) :
    ∀ l : List SPoint,
    (∀ sp ∈ l, sp.p.Equals v = true → sp.p = v) →
    ((∀ sp ∈ l, sp.p ≠ v) ∧ IncrementTagFor l v = l ++ [⟨v, 1⟩]) ∨
    (∃ l1 sp l2, l = l1 ++ sp :: l2 ∧ sp.p = v ∧
      IncrementTagFor l v = l1 ++ { sp with tag := sp.tag + 1 } :: l2) := by
  intro l
  induction l with
  | nil => intro _; left; exact ⟨by simp, rfl⟩
  | cons hd tl ih =>
    intro hc
    by_cases he : hd.p.Equals v = true
    · right
      exact ⟨[], hd, tl, rfl, hc hd (by simp) he, by simp [IncrementTagFor, he]⟩
    · have hdne : hd.p ≠ v := by
        intro h
        exact he (by rw [h]; exact Vector.Equals_refl v)
      rcases ih (fun sp hsp hE => hc sp (List.mem_cons_of_mem _ hsp) hE) with
        ⟨hall, heq⟩ | ⟨l1, sp, l2, hsplit, hpv, heq⟩
      · left
        refine ⟨?_, by simp [IncrementTagFor, he, heq]⟩
        intro sp hsp
        rcases List.mem_cons.mp hsp with h | h
        · exact h ▸ hdne
        · exact hall sp h
      · right
        exact ⟨hd :: l1, sp, l2, by rw [hsplit]; rfl, hpv,
          by simp [IncrementTagFor, he, heq]⟩

theorem choosingTags_fold_spec (stream : List Vector)
    (hsep : ∀ v ∈ stream, ∀ w ∈ stream, v.Equals w = true → v = w) :
    (∀ sp ∈ stream.foldl IncrementTagFor [],
        sp.p ∈ stream ∧ sp.tag = stream.count sp.p) ∧
    (∀ w ∈ stream,
        w ∈ (stream.foldl IncrementTagFor []).map (fun sp => sp.p)) ∧
    ((stream.foldl IncrementTagFor []).map (fun sp => sp.p)).Nodup := by
  induction stream using List.reverseRecOn with
  | nil => simp
  | append_singleton s v ih =>
    have hsepS : ∀ a ∈ s, ∀ b ∈ s, a.Equals b = true → a = b := by
      intro a ha b hb
      exact hsep a (by simp [ha]) b (by simp [hb])
    obtain ⟨htags, hmem, hnodup⟩ := ih hsepS
    have hfold : (s ++ [v]).foldl IncrementTagFor [] =
        IncrementTagFor (s.foldl IncrementTagFor []) v := by
      simp [List.foldl_append]
    have hc : ∀ sp ∈ s.foldl IncrementTagFor [],
        sp.p.Equals v = true → sp.p = v := by
      intro sp hsp hE
      exact hsep sp.p (by simp [(htags sp hsp).1]) v (by simp) hE
    rcases incrementTagFor_spec v _ hc with
      ⟨hall, heq⟩ | ⟨l1, sp, l2, hsplit, hpv, heq⟩
    · -- v is fresh: a new record with tag 1 is appended
      have hvnotin : v ∉ s := by
        intro hv
        obtain ⟨x, hx, hxp⟩ := List.mem_map.mp (hmem v hv)
        exact hall x hx hxp
      rw [hfold, heq]
      refine ⟨?_, ?_, ?_⟩
      · intro sp2 hsp2
        rcases List.mem_append.mp hsp2 with h | h
        · obtain ⟨hp, ht⟩ := htags sp2 h
          refine ⟨List.mem_append_left _ hp, ?_⟩
          rw [List.count_append]
          have : List.count sp2.p [v] = 0 := by
            simp [List.count_singleton]
            exact fun hh => (hall sp2 h) hh.symm
          omega
        · have hsp2v : sp2 = ⟨v, 1⟩ := by simpa using h
          subst hsp2v
          refine ⟨List.mem_append_right _ (by simp), ?_⟩
          rw [List.count_append]
          have h0 : List.count v s = 0 := List.count_eq_zero.mpr hvnotin
          simp [h0]
      · intro w hw
        rcases List.mem_append.mp hw with h | h
        · have := hmem w h
          simp only [List.map_append]
          exact List.mem_append_left _ this
        · simp only [List.map_append]
          refine List.mem_append_right _ ?_
          simp at h
          simp [h]
      · rw [List.map_append]
        refine List.Nodup.append hnodup (by simp) ?_
        intro x hx hx2
        simp at hx2
        subst hx2
        obtain ⟨y, hy, hyp⟩ := List.mem_map.mp hx
        exact hall y hy hyp
    · -- v already has a record: its tag is bumped in place
      have hmapeq : (l1 ++ { sp with tag := sp.tag + 1 } :: l2).map
            (fun x => x.p) =
          (l1 ++ sp :: l2).map (fun x => x.p) := by
        simp
      have hBmap : ((s.foldl IncrementTagFor []).map (fun x => x.p)) =
          (l1 ++ sp :: l2).map (fun x => x.p) := by rw [hsplit]
      have hnodupB : ((l1 ++ sp :: l2).map (fun x => x.p)).Nodup := by
        rw [← hBmap]; exact hnodup
      have hspne : ∀ x, (x ∈ l1 ∨ x ∈ l2) → x.p ≠ sp.p := by
        intro x hx hxp
        have : sp.p ∉ (l1.map (fun y => y.p) ++ l2.map (fun y => y.p)) := by
          have h2 := hnodupB
          rw [List.map_append, List.map_cons] at h2
          exact (List.nodup_cons.mp (List.nodup_middle.mp h2)).1
        rcases hx with h | h
        · exact this (List.mem_append_left _ (hxp ▸ List.mem_map_of_mem _ h))
        · exact this (List.mem_append_right _ (hxp ▸ List.mem_map_of_mem _ h))
      have hspB : sp ∈ s.foldl IncrementTagFor [] := by
        rw [hsplit]; exact List.mem_append_right _ (by simp)
      obtain ⟨hspmem, hsptag⟩ := htags sp hspB
      rw [hfold, heq]
      refine ⟨?_, ?_, ?_⟩
      · intro sp2 hsp2
        rcases List.mem_append.mp hsp2 with h | h
        · have hin : sp2 ∈ s.foldl IncrementTagFor [] := by
            rw [hsplit]; exact List.mem_append_left _ h
          obtain ⟨hp, ht⟩ := htags sp2 hin
          refine ⟨List.mem_append_left _ hp, ?_⟩
          rw [List.count_append]
          have hne : sp2.p ≠ v := hpv ▸ hspne sp2 (Or.inl h)
          have : List.count sp2.p [v] = 0 := by
            simp [List.count_singleton]
            exact fun hh => hne hh.symm
          omega
        · rcases List.mem_cons.mp h with h2 | h2
          · subst h2
            refine ⟨List.mem_append_left _ (by simpa [hpv] using hspmem), ?_⟩
            simp only
            rw [List.count_append, hsptag]
            have : List.count sp.p [v] = 1 := by
              simp [hpv, List.count_singleton]
            omega
          · have hin : sp2 ∈ s.foldl IncrementTagFor [] := by
              rw [hsplit]
              exact List.mem_append_right _ (List.mem_cons_of_mem _ h2)
            obtain ⟨hp, ht⟩ := htags sp2 hin
            refine ⟨List.mem_append_left _ hp, ?_⟩
            rw [List.count_append]
            have hne : sp2.p ≠ v := hpv ▸ hspne sp2 (Or.inr h2)
            have : List.count sp2.p [v] = 0 := by
              simp [List.count_singleton]
              exact fun hh => hne hh.symm
            omega
      · intro w hw
        have hw2 : w ∈ s ∨ w = v := by
          rcases List.mem_append.mp hw with h | h
          · exact Or.inl h
          · exact Or.inr (by simpa using h)
        have : w ∈ (s.foldl IncrementTagFor []).map (fun x => x.p) := by
          rcases hw2 with h | h
          · exact hmem w h
          · subst h
            rw [hBmap]
            refine List.mem_map.mpr ⟨sp, by simp, hpv⟩
        rw [hmapeq, ← hBmap]
        exact this
      · rw [hmapeq, ← hBmap]
        exact hnodup

theorem mem_choosingPoints_iff (orig inter : List SEdge) (q : Vector) :
    q ∈ (choosingPoints orig inter).map (fun sp => sp.p) ↔
      ∃ sp ∈ choosingTags orig inter, sp.p = q ∧ sp.tag ≠ 2 := by
  constructor
  · intro hq
    obtain ⟨x, hx, hxp⟩ := List.mem_map.mp hq
    obtain ⟨hx1, hx2⟩ := List.mem_filter.mp hx
    obtain ⟨y, hy, hyx⟩ := List.mem_map.mp hx1
    refine ⟨y, hy, ?_, ?_⟩
    · by_cases h2 : y.tag = 2 <;> simp [h2] at hyx <;>
        (rw [← hxp, ← hyx])
    · intro h2
      rw [← hyx] at hx2
      simp [h2] at hx2
  · rintro ⟨sp, hsp, hpq, htag⟩
    refine List.mem_map.mpr ⟨{ sp with tag := 0 }, ?_, hpq⟩
    refine List.mem_filter.mpr ⟨?_, by simp⟩
    refine List.mem_map.mpr ⟨sp, hsp, by simp [htag]⟩

/-- Claim C8: under the assumption that tolerance-equality does not merge
distinct endpoints (any two Equal endpoints of the combined edge lists are
identical), the choosing-point set passed to FindChainAvoiding contains
exactly the UV points whose total incidence count over the combined orig and
inter edge lists, counting both endpoints of every edge, differs from two. -/
theorem choosingPoints_c8 (orig inter : List SEdge)
    (hsep : ∀ v ∈ endpointStream orig inter, ∀ w ∈ endpointStream orig inter,
      v.Equals w = true → v = w) (q : Vector) :
    q ∈ (choosingPoints orig inter).map (fun sp => sp.p) ↔
      (q ∈ endpointStream orig inter ∧
       (endpointStream orig inter).count q ≠ 2) := by
  obtain ⟨htags, hmem, _hnodup⟩ := choosingTags_fold_spec _ hsep
  rw [mem_choosingPoints_iff]
  constructor
  · rintro ⟨sp, hsp, hpq, htag⟩
    obtain ⟨hp, ht⟩ := htags sp hsp
    subst hpq
    exact ⟨hp, fun hc => htag (by rw [ht, hc]; simp)⟩
  · rintro ⟨hq, hcount⟩
    obtain ⟨x, hx, hxp⟩ := List.mem_map.mp (hmem q hq)
    obtain ⟨_, ht⟩ := htags x hx
    refine ⟨x, hx, hxp, ?_⟩
    rw [ht, hxp]
    exact_mod_cast hcount

theorem choosingPoints_c8_witness :
    (⟨1, 0, 0⟩ : Vector) ∈
        (choosingPoints [eC8a, eC8b] []).map (fun sp => sp.p) ↔
      ((⟨1, 0, 0⟩ : Vector) ∈ endpointStream [eC8a, eC8b] [] ∧
       (endpointStream [eC8a, eC8b] []).count ⟨1, 0, 0⟩ ≠ 2) := by
  refine choosingPoints_c8 [eC8a, eC8b] [] ?_ ⟨1, 0, 0⟩
  intro v hv w hw h
  simp [endpointStream, eC8a, eC8b] at hv hw
  rcases hv with rfl | rfl | rfl <;> rcases hw with rfl | rfl | rfl <;>
    first
      | rfl
      | (exfalso
         simp [Vector.Equals, Vector.Minus, Vector.MagSquared, Vector.Dot,
           LENGTH_EPS] at h
         norm_num at h)


theorem splitLoop_interleave (ctx : SplitCtx) (srfA srfB : ℕ) :
    ∀ (l : List SCurvePt) (prevP : Vector) (q0 : SCurvePt),
    ∃ gaps : List (List SCurvePt),
      gaps.length = l.length ∧
      q0 :: splitLoop ctx srfA srfB prevP l = interleave (q0 :: l) gaps ∧
      (q0 :: splitLoop ctx srfA srfB prevP l).getLast? =
        (q0 :: l).getLast? := by
  intro l
  induction l with
  | nil => intro prevP q0; exact ⟨[], rfl, rfl, rfl⟩
  | cons p rest ih =>
    intro prevP q0
    obtain ⟨gaps, hlen, heq, hlast⟩ := ih p.p p
    refine ⟨processSeg ctx srfA srfB prevP p.p :: gaps, by simp [hlen],
      ?_, ?_⟩
    · simp only [splitLoop, interleave]
      rw [← heq]
    · have h1 : (q0 :: splitLoop ctx srfA srfB prevP (p :: rest)) =
          (q0 :: processSeg ctx srfA srfB prevP p.p) ++
            (p :: splitLoop ctx srfA srfB p.p rest) := by
        simp [splitLoop]
      have hx : ∃ x, (p :: rest).getLast? = some x :=
        Option.isSome_iff_exists.mp (List.getLast?_isSome.mpr (by simp))
      obtain ⟨x, hx⟩ := hx
      rw [h1, List.getLast?_append, hlast, List.getLast?_cons_cons, hx]
      rfl

/-- Claim C5: for every nonempty input curve, MakeCopySplitAgainst succeeds
and its pwl list is the original pwl list with new points inserted only
strictly between consecutive original points (an interleaving), so in
particular it contains every original point in order and keeps the first and
last points of the input. -/
theorem makeCopySplitAgainst_c5 (ctx : SplitCtx) (srfA srfB : ℕ)
    (c : SCurve) (hne : c.pts ≠ []) :
    ∃ r gaps, SCurve.MakeCopySplitAgainst ctx srfA srfB c = some r ∧
      gaps.length + 1 = c.pts.length ∧
      r.pts = interleave c.pts gaps ∧
      r.pts.head? = c.pts.head? ∧
      r.pts.getLast? = c.pts.getLast? := by
  match hc : c.pts with
  | [] => exact absurd hc hne
  | p0 :: rest =>
    obtain ⟨gaps, hlen, heq, hlast⟩ :=
      splitLoop_interleave ctx srfA srfB rest p0.p p0
    refine ⟨{ c with pts := p0 :: splitLoop ctx srfA srfB p0.p rest }, gaps,
      ?_, by simp [hlen], ?_, by simp, ?_⟩
    · rw [SCurve.MakeCopySplitAgainst, hc]
    · simpa using heq
    · simpa using hlast

/-- Witness for makeCopySplitAgainst_c5 at a concrete curve and context. -/
theorem makeCopySplitAgainst_c5_witness :
    ∃ r gaps, SCurve.MakeCopySplitAgainst ctxC5 0 1 cC5 = some r ∧
      gaps.length + 1 = cC5.pts.length ∧
      r.pts = interleave cC5.pts gaps ∧
      r.pts.head? = cC5.pts.head? ∧
      r.pts.getLast? = cC5.pts.getLast? :=
  makeCopySplitAgainst_c5 ctxC5 0 1 cC5 (by simp [cC5])


theorem rewriteHandles_preserve (a b s r : SShell)
    (h : RewriteSurfaceHandlesForCurves a b s = some r) :
    r.booleanFailed = s.booleanFailed ∧ r.surface = s.surface := by
  unfold RewriteSurfaceHandlesForCurves at h
  cases hmm : s.curve.mapM (fun sc => do
      let sA ← GetSurfaceA a b sc
      let sB ← GetSurfaceB a b sc
      pure { sc with surfA := sA.newH, surfB := sB.newH }) with
  | none => rw [hmm] at h; simp at h
  | some nc =>
    rw [hmm] at h
    simp at h
    rw [← h]
    exact ⟨rfl, rfl⟩

theorem cleanup_edges (shell : SShell) :
    ∀ ss ∈ (CleanupAfterBoolean shell).surface, ss.edges = [] := by
  intro ss hss
  simp [CleanupAfterBoolean] at hss
  obtain ⟨t, _, rfl⟩ := hss
  rfl

/-- Claim C7 (counterexample): CleanupAfterBoolean does not reset the newH
slot nor the BSP pointer; on a shell whose single surface carries newH 7 and
a non-null BSP, both survive the cleanup, and only the edge list is
cleared. -/
theorem cleanupAfterBoolean_c7_counterexample :
    (CleanupAfterBoolean shellC7).surface = [⟨1, 7, [], bspC2, []⟩] ∧
    ((CleanupAfterBoolean shellC7).surface.map fun ss => ss.newH) = [7] ∧
    ((CleanupAfterBoolean shellC7).surface.map fun ss => ss.bsp) = [bspC2] ∧
    bspC2 ≠ SBspUv.nil := by
  refine ⟨rfl, rfl, rfl, by simp [bspC2]⟩

/-- Claim C7 (amended): CleanupAfterBoolean clears exactly the per-surface
xyz edge lists and leaves every other field of the shell unchanged (curves,
failure flag, and the surfaces' handles, newH slots, trims and BSP
pointers); at the end of MakeFromBoolean both operands therefore come out
with empty per-surface edge lists, while their newH slots and BSP pointers
are not reset by the cleanup. -/
theorem cleanupAfterBoolean_c7_amended :
    (∀ shell : SShell,
      (CleanupAfterBoolean shell).curve = shell.curve ∧
      (CleanupAfterBoolean shell).booleanFailed = shell.booleanFailed ∧
      (CleanupAfterBoolean shell).surface =
        shell.surface.map fun ss => { ss with edges := [] }) ∧
    (∀ (bc : BoolCtx) (a b : SShell) (type : CombineAs) (r a2 b2 : SShell),
      MakeFromBoolean bc a b type = some (r, a2, b2) →
      (∀ ss ∈ a2.surface, ss.edges = []) ∧
      (∀ ss ∈ b2.surface, ss.edges = [])) := by
  refine ⟨fun shell => ⟨rfl, rfl, rfl⟩, ?_⟩
  intro bc a b type r a2 b2 h
  unfold MakeFromBoolean at h
  simp only [Option.bind_eq_bind, Option.bind_eq_some, Option.pure_def,
    Option.some.injEq] at h
  obtain ⟨s1, hs1, s2, hs2, in4, hin4, s5, hs5, s6, hs6, in7, hin7, hfin⟩ := h
  have ha2 : a2 = CleanupAfterBoolean s5.2 := by
    have h2 := congrArg (fun t => t.2.1) hfin
    simpa using h2.symm
  have hb2 : b2 = CleanupAfterBoolean s6.2 := by
    have h2 := congrArg (fun t => t.2.2) hfin
    simpa using h2.symm
  subst ha2
  subst hb2
  exact ⟨cleanup_edges _, cleanup_edges _⟩

/-- Witness for cleanupAfterBoolean_c7_amended: the concrete scratch shell,
and a trivial but complete run of MakeFromBoolean on empty operands. -/
theorem cleanupAfterBoolean_c7_amended_witness :
    ((CleanupAfterBoolean shellC7).curve = shellC7.curve ∧
     (CleanupAfterBoolean shellC7).booleanFailed = shellC7.booleanFailed ∧
     (CleanupAfterBoolean shellC7).surface =
       shellC7.surface.map fun ss => { ss with edges := [] }) ∧
    ((∀ ss ∈ shellEmpty.surface, ss.edges = []) ∧
     (∀ ss ∈ shellEmpty.surface, ss.edges = [])) :=
  ⟨cleanupAfterBoolean_c7_amended.1 shellC7,
   cleanupAfterBoolean_c7_amended.2 bcTrivial shellEmpty shellEmpty
     CombineAs.UNION shellEmpty shellEmpty shellEmpty rfl⟩

/-- Claim C10: whenever MakeFromAssemblyOf completes, the result shell's
booleanFailed flag is false: the flag is cleared on entry and no step of the
assembly path (curve copy, surface copy, handle rewriting) can set it. -/
theorem makeFromAssemblyOf_c10 (a b r a2 b2 : SShell)
    (h : MakeFromAssemblyOf a b = some (r, a2, b2)) :
    r.booleanFailed = false := by
  unfold MakeFromAssemblyOf at h
  simp only [Option.bind_eq_bind, Option.bind_eq_some, Option.pure_def,
    Option.some.injEq] at h
  obtain ⟨sA, hsA, sB, hsB, in2, hin2, hfin⟩ := h
  have hr : r = in2 := by
    have h2 := congrArg (fun t => t.1) hfin
    simpa using h2.symm
  subst hr
  exact (rewriteHandles_preserve _ _ _ _ hin2).1

/-- Witness for makeFromAssemblyOf_c10: assembling two empty shells. -/
theorem makeFromAssemblyOf_c10_witness : shellEmpty.booleanFailed = false :=
  makeFromAssemblyOf_c10 shellEmpty shellEmpty shellEmpty shellEmpty
    shellEmpty rfl


theorem maxNat_append (l1 l2 : List ℕ) :
    maxNat (l1 ++ l2) = max (maxNat l1) (maxNat l2) := by
  induction l1 with
  | nil => simp [maxNat]
  | cons n rest ih =>
    simp only [maxNat, List.cons_append, List.foldr_cons] at *
    rw [ih, Nat.max_assoc]

theorem le_maxNat_of_mem {n : ℕ} {ns : List ℕ} (h : n ∈ ns) :
    n ≤ maxNat ns := by
  induction ns with
  | nil => cases h
  | cons m rest ih =>
    rcases List.mem_cons.mp h with rfl | h2
    · exact Nat.le_max_left _ _ |>.trans (Nat.le_refl _)
    · exact (ih h2).trans (Nat.le_max_right _ _)

theorem hasUniqueNat_snoc_preserve {ns : List ℕ} {k : ℕ}
    (h : HasUniqueNat ns k) : HasUniqueNat (ns ++ [maxNat ns + 1]) k := by
  obtain ⟨hc, hle⟩ := h
  constructor
  · rw [List.count_append, hc]
    have : List.count k [maxNat ns + 1] = 0 := by
      simp [List.count_singleton]
      omega
    omega
  · rw [maxNat_append]
    exact hle.trans (Nat.le_max_left _ _)

theorem hasUniqueNat_snoc_fresh (ns : List ℕ) :
    HasUniqueNat (ns ++ [maxNat ns + 1]) (maxNat ns + 1) := by
  constructor
  · rw [List.count_append]
    have h0 : List.count (maxNat ns + 1) ns = 0 := by
      rw [List.count_eq_zero]
      intro hmem
      have := le_maxNat_of_mem hmem
      omega
    simp [h0]
  · rw [maxNat_append]
    refine le_trans ?_ (Nat.le_max_right _ _)
    simp [maxNat]

theorem hasUniqueNat_mem {ns : List ℕ} {k : ℕ} (h : HasUniqueNat ns k) :
    k ∈ ns := by
  have := h.1
  have hpos : 0 < ns.count k := by omega
  exact List.count_pos_iff.mp hpos

theorem addCurve_map (l : List SCurve) (c : SCurve) :
    ((addCurve l c).1).map (fun c => c.h) =
      l.map (fun c => c.h) ++ [(addCurve l c).2] ∧
    (addCurve l c).2 = maxNat (l.map fun c => c.h) + 1 := by
  simp [addCurve, addBy, maxIdBy]

theorem addSurface_map (l : List SSurface) (s : SSurface) :
    ((addSurface l s).1).map (fun s => s.h) =
      l.map (fun s => s.h) ++ [(addSurface l s).2] ∧
    (addSurface l s).2 = maxNat (l.map fun s => s.h) + 1 := by
  simp [addSurface, addBy, maxIdBy]

theorem addCurve_preserve {l : List SCurve} {k : ℕ} (c : SCurve)
    (h : HasUniqueBy (fun c => c.h) l k) :
    HasUniqueBy (fun c => c.h) (addCurve l c).1 k := by
  obtain ⟨hm, hid⟩ := addCurve_map l c
  unfold HasUniqueBy at *
  rw [hm, hid]
  exact hasUniqueNat_snoc_preserve h

theorem addCurve_fresh (l : List SCurve) (c : SCurve) :
    HasUniqueBy (fun c => c.h) (addCurve l c).1 (addCurve l c).2 := by
  obtain ⟨hm, hid⟩ := addCurve_map l c
  unfold HasUniqueBy
  rw [hm, hid]
  exact hasUniqueNat_snoc_fresh _

theorem addSurface_preserve {l : List SSurface} {k : ℕ} (s : SSurface)
    (h : HasUniqueBy (fun s => s.h) l k) :
    HasUniqueBy (fun s => s.h) (addSurface l s).1 k := by
  obtain ⟨hm, hid⟩ := addSurface_map l s
  unfold HasUniqueBy at *
  rw [hm, hid]
  exact hasUniqueNat_snoc_preserve h

theorem addSurface_fresh (l : List SSurface) (s : SSurface) :
    HasUniqueBy (fun s => s.h) (addSurface l s).1 (addSurface l s).2 := by
  obtain ⟨hm, hid⟩ := addSurface_map l s
  unfold HasUniqueBy
  rw [hm, hid]
  exact hasUniqueNat_snoc_fresh _

theorem hasUniqueBy_of_map_eq {α : Type} {getH : α → ℕ}
    {l1 l2 : List α} {k : ℕ} (hm : l2.map getH = l1.map getH)
    (h : HasUniqueBy getH l1 k) : HasUniqueBy getH l2 k := by
  unfold HasUniqueBy at *
  rw [hm]
  exact h

theorem hasUniqueBy_mem {α : Type} {getH : α → ℕ} {l : List α} {k : ℕ}
    (h : HasUniqueBy getH l k) : ∃ x ∈ l, getH x = k := by
  have := hasUniqueNat_mem h
  obtain ⟨x, hx, hxk⟩ := List.mem_map.mp this
  exact ⟨x, hx, hxk⟩

theorem countH_eq_one {α : Type} {getH : α → ℕ} {l : List α} {k : ℕ}
    (h : HasUniqueBy getH l k) : countH getH l k = 1 := h.1

theorem mapM_some_map_eq {α β : Type} {f : α → Option α} (g : α → β)
    (hf : ∀ x y, f x = some y → g y = g x) :
    ∀ (l l2 : List α), l.mapM f = some l2 → l2.map g = l.map g := by
  intro l
  induction l with
  | nil =>
    intro l2 h
    rw [List.mapM_nil] at h
    injection h with h
    subst h
    rfl
  | cons x rest ih =>
    intro l2 h
    rw [List.mapM_cons] at h
    simp only [Option.bind_eq_bind, Option.bind_eq_some, Option.pure_def,
      Option.some.injEq] at h
    obtain ⟨y, hy, ys, hys, rfl⟩ := h
    simp [hf x y hy, ih ys hys]

theorem mapM_some_mem {α β : Type} {f : α → Option β} :
    ∀ (l : List α) (l2 : List β), l.mapM f = some l2 →
      ∀ y ∈ l2, ∃ x ∈ l, f x = some y := by
  intro l
  induction l with
  | nil =>
    intro l2 h
    rw [List.mapM_nil] at h
    injection h with h
    subst h
    simp
  | cons x rest ih =>
    intro l2 h
    rw [List.mapM_cons] at h
    simp only [Option.bind_eq_bind, Option.bind_eq_some, Option.pure_def,
      Option.some.injEq] at h
    obtain ⟨y, hy, ys, hys, rfl⟩ := h
    intro z hz
    rcases List.mem_cons.mp hz with rfl | hz2
    · exact ⟨x, by simp, hy⟩
    · obtain ⟨x2, hx2, hfx2⟩ := ih ys hys z hz2
      exact ⟨x2, by simp [hx2], hfx2⟩

theorem findSurface_mem {l : List SSurface} {id : ℕ} {s : SSurface}
    (h : findSurface l id = some s) : s ∈ l ∧ s.h = id := by
  unfold findSurface at h
  refine ⟨List.mem_of_find?_eq_some h, ?_⟩
  have := List.find?_some h
  simpa using this

theorem getSurfaceA_mem {a b : SShell} {sc : SCurve} {s : SSurface}
    (h : GetSurfaceA a b sc = some s) :
    (s ∈ a.surface ∨ s ∈ b.surface) ∧ s.h = sc.surfA := by
  unfold GetSurfaceA at h
  cases hsrc : sc.source <;> rw [hsrc] at h
  · exact ⟨Or.inl (findSurface_mem h).1, (findSurface_mem h).2⟩
  · exact ⟨Or.inr (findSurface_mem h).1, (findSurface_mem h).2⟩
  · exact ⟨Or.inl (findSurface_mem h).1, (findSurface_mem h).2⟩

theorem getSurfaceB_mem {a b : SShell} {sc : SCurve} {s : SSurface}
    (h : GetSurfaceB a b sc = some s) :
    (s ∈ a.surface ∨ s ∈ b.surface) ∧ s.h = sc.surfB := by
  unfold GetSurfaceB at h
  cases hsrc : sc.source <;> rw [hsrc] at h
  · exact ⟨Or.inl (findSurface_mem h).1, (findSurface_mem h).2⟩
  · exact ⟨Or.inr (findSurface_mem h).1, (findSurface_mem h).2⟩
  · exact ⟨Or.inr (findSurface_mem h).1, (findSurface_mem h).2⟩

theorem copyCurvesGo_spec (ctx : SplitCtx) (opA : Bool)
    (surfs : List SSurface) :
    ∀ (cs intoCurves into2 cs2 : List SCurve),
    copyCurvesGo ctx opA surfs intoCurves cs = some (into2, cs2) →
    (∀ k, HasUniqueBy (fun c : SCurve => c.h) intoCurves k →
       HasUniqueBy (fun c : SCurve => c.h) into2 k) ∧
    (∀ c2 ∈ cs2, HasUniqueBy (fun c : SCurve => c.h) into2 c2.newH) := by
  intro cs
  induction cs with
  | nil =>
    intro intoCurves into2 cs2 h
    simp only [copyCurvesGo, Option.some.injEq, Prod.mk.injEq] at h
    obtain ⟨rfl, rfl⟩ := h
    exact ⟨fun k hk => hk, by simp⟩
  | cons sc rest ih =>
    intro intoCurves into2 cs2 h
    simp only [copyCurvesGo, Option.bind_eq_bind, Option.bind_eq_some,
      Option.pure_def, Option.some.injEq, Prod.mk.injEq] at h
    obtain ⟨sA, hsA, sB, hsB, scn, hscn, step, hstep, hfin1, hfin2⟩ := h
    obtain ⟨hmono, huniq⟩ := ih _ step.1 step.2 (by
      rw [hstep])
    subst hfin1
    constructor
    · intro k hk
      exact hmono k (addCurve_preserve _ hk)
    · intro c2 hc2
      rw [← hfin2] at hc2
      rcases List.mem_cons.mp hc2 with rfl | h2
      · exact hmono _ (addCurve_fresh intoCurves _)
      · exact huniq c2 h2

theorem addCurvesList_mono :
    ∀ (cs intoCurves : List SCurve) (k : ℕ),
    HasUniqueBy (fun c : SCurve => c.h) intoCurves k →
    HasUniqueBy (fun c : SCurve => c.h) (addCurvesList intoCurves cs) k := by
  intro cs
  induction cs with
  | nil => intro intoCurves k hk; exact hk
  | cons c rest ih =>
    intro intoCurves k hk
    exact ih _ k (addCurve_preserve _ hk)

theorem copySurfacesGo_spec (oracle : TrimOracle) (parent : SShell) :
    ∀ (ss : List SSurface) (intoSurfs : List SSurface) (failed : Bool)
      (into2 ss2 : List SSurface) (failed2 : Bool),
    copySurfacesGo oracle parent intoSurfs ss failed =
      some (into2, ss2, failed2) →
    (∀ k, HasUniqueBy (fun s : SSurface => s.h) intoSurfs k →
       HasUniqueBy (fun s : SSurface => s.h) into2 k) ∧
    (∀ s2 ∈ ss2, HasUniqueBy (fun s : SSurface => s.h) into2 s2.newH) := by
  intro ss
  induction ss with
  | nil =>
    intro intoSurfs failed into2 ss2 failed2 h
    simp only [copySurfacesGo, Option.some.injEq, Prod.mk.injEq] at h
    obtain ⟨rfl, rfl, rfl⟩ := h
    exact ⟨fun k hk => hk, by simp⟩
  | cons s rest ih =>
    intro intoSurfs failed into2 ss2 failed2 h
    simp only [copySurfacesGo, Option.bind_eq_bind, Option.bind_eq_some,
      Option.pure_def, Option.some.injEq, Prod.mk.injEq] at h
    obtain ⟨st1, hst1, step, hstep, hfin1, hfin2, hfin3⟩ := h
    obtain ⟨hmono, huniq⟩ := ih _ _ step.1 step.2.1 step.2.2 (by rw [hstep])
    subst hfin1
    constructor
    · intro k hk
      exact hmono k (addSurface_preserve _ hk)
    · intro s2 hs2
      rw [← hfin2] at hs2
      rcases List.mem_cons.mp hs2 with rfl | h2
      · exact hmono _ (addSurface_fresh intoSurfs _)
      · exact huniq s2 h2

theorem assemblyCopyCurves_spec (isA : Bool) :
    ∀ (cs intoCurves : List SCurve),
    (∀ k, HasUniqueBy (fun c : SCurve => c.h) intoCurves k →
       HasUniqueBy (fun c : SCurve => c.h)
         (assemblyCopyCurves isA intoCurves cs).1 k) ∧
    (∀ c2 ∈ (assemblyCopyCurves isA intoCurves cs).2,
       HasUniqueBy (fun c : SCurve => c.h)
         (assemblyCopyCurves isA intoCurves cs).1 c2.newH) := by
  intro cs
  induction cs with
  | nil => intro intoCurves; exact ⟨fun k hk => hk, by simp [assemblyCopyCurves]⟩
  | cons c rest ih =>
    intro intoCurves
    obtain ⟨hmono, huniq⟩ := ih (addCurve intoCurves
      { c with source := if isA then SCurveSource.A else SCurveSource.B }).1
    constructor
    · intro k hk
      exact hmono k (addCurve_preserve _ hk)
    · intro c2 hc2
      simp only [assemblyCopyCurves] at hc2
      rcases List.mem_cons.mp hc2 with rfl | h2
      · exact hmono _ (addCurve_fresh intoCurves _)
      · exact huniq c2 h2

theorem assemblyCopySurfaces_spec (abCurves : List SCurve) :
    ∀ (ss intoSurfs : List SSurface) (into2 ss2 : List SSurface),
    assemblyCopySurfaces abCurves intoSurfs ss = some (into2, ss2) →
    (∀ k, HasUniqueBy (fun s : SSurface => s.h) intoSurfs k →
       HasUniqueBy (fun s : SSurface => s.h) into2 k) ∧
    (∀ s2 ∈ ss2, HasUniqueBy (fun s : SSurface => s.h) into2 s2.newH) := by
  intro ss
  induction ss with
  | nil =>
    intro intoSurfs into2 ss2 h
    simp only [assemblyCopySurfaces, Option.some.injEq, Prod.mk.injEq] at h
    obtain ⟨rfl, rfl⟩ := h
    exact ⟨fun k hk => hk, by simp⟩
  | cons s rest ih =>
    intro intoSurfs into2 ss2 h
    simp only [assemblyCopySurfaces, Option.bind_eq_bind, Option.bind_eq_some,
      Option.pure_def, Option.some.injEq, Prod.mk.injEq] at h
    obtain ⟨nt, hnt, step, hstep, hfin1, hfin2⟩ := h
    obtain ⟨hmono, huniq⟩ := ih _ step.1 step.2 (by rw [hstep])
    subst hfin1
    constructor
    · intro k hk
      exact hmono k (addSurface_preserve _ hk)
    · intro s2 hs2
      rw [← hfin2] at hs2
      rcases List.mem_cons.mp hs2 with rfl | h2
      · exact hmono _ (addSurface_fresh intoSurfs _)
      · exact huniq s2 h2

theorem removeShort_spec {rssPts : SCurve → List SCurvePt} {a b into into2 :
    SShell} (h : removeShortSegments rssPts a b into = some into2) :
    into2.curve.map (fun c => c.h) = into.curve.map (fun c => c.h) ∧
    into2.surface = into.surface := by
  unfold removeShortSegments at h
  simp only [Option.bind_eq_bind, Option.bind_eq_some, Option.pure_def,
    Option.some.injEq] at h
  obtain ⟨nc, hnc, hfin⟩ := h
  subst hfin
  refine ⟨?_, rfl⟩
  refine mapM_some_map_eq (fun c => c.h) ?_ _ _ hnc
  intro x y hxy
  simp only [Option.bind_eq_bind, Option.bind_eq_some, Option.pure_def,
    Option.some.injEq] at hxy
  obtain ⟨sA, _, sB, _, hy⟩ := hxy
  rw [← hy]

theorem rewriteHandles_curve_map {a b s r : SShell}
    (h : RewriteSurfaceHandlesForCurves a b s = some r) :
    r.curve.map (fun c => c.h) = s.curve.map (fun c => c.h) := by
  unfold RewriteSurfaceHandlesForCurves at h
  simp only [Option.bind_eq_bind, Option.bind_eq_some, Option.pure_def,
    Option.some.injEq] at h
  obtain ⟨nc, hnc, hfin⟩ := h
  subst hfin
  refine mapM_some_map_eq (fun c => c.h) ?_ _ _ hnc
  intro x y hxy
  simp only [Option.bind_eq_bind, Option.bind_eq_some, Option.pure_def,
    Option.some.injEq] at hxy
  obtain ⟨sA, _, sB, _, hy⟩ := hxy
  rw [← hy]

theorem rewriteHandles_mem {a b s r : SShell}
    (h : RewriteSurfaceHandlesForCurves a b s = some r) :
    ∀ y ∈ r.curve, ∃ sc ∈ s.curve, ∃ sA sB,
      GetSurfaceA a b sc = some sA ∧ GetSurfaceB a b sc = some sB ∧
      y.surfA = sA.newH ∧ y.surfB = sB.newH := by
  unfold RewriteSurfaceHandlesForCurves at h
  simp only [Option.bind_eq_bind, Option.bind_eq_some, Option.pure_def,
    Option.some.injEq] at h
  obtain ⟨nc, hnc, hfin⟩ := h
  subst hfin
  intro y hy
  obtain ⟨x, hx, hfx⟩ := mapM_some_mem _ _ hnc y hy
  simp only [Option.bind_eq_bind, Option.bind_eq_some, Option.pure_def,
    Option.some.injEq] at hfx
  obtain ⟨sA, hsA, sB, hsB, hy2⟩ := hfx
  exact ⟨x, hx, sA, sB, hsA, hsB, by rw [← hy2], by rw [← hy2]⟩

theorem copyCurvesSplit_spec {ctx : SplitCtx} {opA : Bool}
    {parent into into2 parent2 : SShell}
    (h : CopyCurvesSplitAgainst ctx opA parent into = some (into2, parent2)) :
    ∃ r, copyCurvesGo ctx opA parent.surface into.curve parent.curve = some r ∧
      into2 = { into with curve := r.1 } ∧
      parent2 = { parent with curve := r.2 } := by
  unfold CopyCurvesSplitAgainst at h
  simp only [Option.bind_eq_bind, Option.bind_eq_some, Option.pure_def,
    Option.some.injEq, Prod.mk.injEq] at h
  obtain ⟨r, hr, h1, h2⟩ := h
  exact ⟨r, hr, h1.symm, h2.symm⟩

theorem copySurfacesTrim_spec {oracle : TrimOracle}
    {parent into into2 parent2 : SShell}
    (h : CopySurfacesTrimAgainst oracle parent into = some (into2, parent2)) :
    ∃ r, copySurfacesGo oracle parent into.surface parent.surface
        into.booleanFailed = some r ∧
      into2 = { into with surface := r.1, booleanFailed := r.2.2 } ∧
      parent2 = { parent with surface := r.2.1 } := by
  unfold CopySurfacesTrimAgainst at h
  simp only [Option.bind_eq_bind, Option.bind_eq_some, Option.pure_def,
    Option.some.injEq, Prod.mk.injEq] at h
  obtain ⟨r, hr, h1, h2⟩ := h
  exact ⟨r, hr, h1.symm, h2.symm⟩

theorem cleanup_surface_mem {sh : SShell} :
    ∀ ss ∈ (CleanupAfterBoolean sh).surface,
      ∃ s0 ∈ sh.surface, ss.newH = s0.newH := by
  intro ss hss
  simp only [CleanupAfterBoolean, List.mem_map] at hss
  obtain ⟨s0, hs0, rfl⟩ := hss
  exact ⟨s0, hs0, rfl⟩

theorem assembly_handleSpec (a b r a2 b2 : SShell)
    (h : MakeFromAssemblyOf a b = some (r, a2, b2)) :
    HandleSpec r a2 b2 := by
  unfold MakeFromAssemblyOf at h
  simp only [Option.bind_eq_bind, Option.bind_eq_some, Option.pure_def,
    Option.some.injEq] at h
  obtain ⟨sA, hsA, sB, hsB, in2, hin2, hfin⟩ := h
  set stepA := assemblyCopyCurves true [] a.curve with hstepA
  set stepB := assemblyCopyCurves false stepA.1 b.curve with hstepB
  have hr : r = in2 := by
    have h2 := congrArg (fun t => t.1) hfin
    simpa using h2.symm
  have ha2 : a2 =
      { surface := sA.2, curve := stepA.2,
        booleanFailed := a.booleanFailed } := by
    have h2 := congrArg (fun t => t.2.1) hfin
    simpa using h2.symm
  have hb2 : b2 =
      { surface := sB.2, curve := stepB.2,
        booleanFailed := b.booleanFailed } := by
    have h2 := congrArg (fun t => t.2.2) hfin
    simpa using h2.symm
  subst hr ha2 hb2
  obtain ⟨hBF, hSurfEq⟩ := rewriteHandles_preserve _ _ _ _ hin2
  have hCurveMap : r.curve.map (fun c => c.h) =
      stepB.1.map (fun c => c.h) := by
    simpa using rewriteHandles_curve_map hin2
  have hSurfEq2 : r.surface = sB.1 := by simpa using hSurfEq
  obtain ⟨hmonoCB, huniqCB⟩ := assemblyCopyCurves_spec false b.curve stepA.1
  obtain ⟨hmonoSA, huniqSA⟩ :=
    assemblyCopySurfaces_spec stepA.2 a.surface [] sA.1 sA.2 (by rw [hsA])
  obtain ⟨hmonoSB, huniqSB⟩ :=
    assemblyCopySurfaces_spec stepB.2 b.surface sA.1 sB.1 sB.2 (by rw [hsB])
  have curveUnique : ∀ k, HasUniqueBy (fun c : SCurve => c.h) stepB.1 k →
      countH (fun c : SCurve => c.h) r.curve k = 1 := by
    intro k hk
    exact countH_eq_one (hasUniqueBy_of_map_eq hCurveMap hk)
  have surfUnique : ∀ k, HasUniqueBy (fun s : SSurface => s.h) sB.1 k →
      countH (fun s : SSurface => s.h) r.surface k = 1 := by
    intro k hk
    rw [hSurfEq2]
    exact countH_eq_one hk
  refine ⟨?_, ?_, ?_⟩
  · intro sc hsc
    rcases List.mem_append.mp hsc with h1 | h1
    · have hu := (assemblyCopyCurves_spec true a.curve []).2 sc h1
      exact curveUnique _ (hmonoCB _ hu)
    · exact curveUnique _ (huniqCB sc h1)
  · intro ss hss
    rcases List.mem_append.mp hss with h1 | h1
    · exact surfUnique _ (hmonoSB _ (huniqSA ss h1))
    · exact surfUnique _ (huniqSB ss h1)
  · intro sc hsc
    obtain ⟨sc0, hsc0, sA2, sB2, hgA, hgB, hyA, hyB⟩ :=
      rewriteHandles_mem hin2 sc hsc
    have hAmem := getSurfaceA_mem hgA
    have hBmem := getSurfaceB_mem hgB
    constructor
    · have hu : HasUniqueBy (fun s : SSurface => s.h) sB.1 sA2.newH := by
        rcases hAmem.1 with hm | hm
        · simp only at hm
          exact hmonoSB _ (huniqSA sA2 hm)
        · simp only at hm
          exact huniqSB sA2 hm
      obtain ⟨x, hx, hxh⟩ := hasUniqueBy_mem hu
      refine ⟨x, by rw [hSurfEq2]; exact hx, by rw [hxh, hyA]⟩
    · have hu : HasUniqueBy (fun s : SSurface => s.h) sB.1 sB2.newH := by
        rcases hBmem.1 with hm | hm
        · simp only at hm
          exact hmonoSB _ (huniqSA sB2 hm)
        · simp only at hm
          exact huniqSB sB2 hm
      obtain ⟨x, hx, hxh⟩ := hasUniqueBy_mem hu
      refine ⟨x, by rw [hSurfEq2]; exact hx, by rw [hxh, hyB]⟩

theorem boolean_handleSpec (bc : BoolCtx) (a b : SShell) (type : CombineAs)
    (r a2 b2 : SShell) (h : MakeFromBoolean bc a b type = some (r, a2, b2)) :
    HandleSpec r a2 b2 := by
  unfold MakeFromBoolean at h
  simp only [Option.bind_eq_bind, Option.bind_eq_some, Option.pure_def,
    Option.some.injEq] at h
  obtain ⟨s1, hs1, s2, hs2, in4, hin4, s5, hs5, s6, hs6, in7, hin7, hfin⟩ := h
  have hr : r = in7 := by
    have h2 := congrArg (fun t => t.1) hfin
    simpa using h2.symm
  have ha2 : a2 = CleanupAfterBoolean s5.2 := by
    have h2 := congrArg (fun t => t.2.1) hfin
    simpa using h2.symm
  have hb2 : b2 = CleanupAfterBoolean s6.2 := by
    have h2 := congrArg (fun t => t.2.2) hfin
    simpa using h2.symm
  subst hr
  obtain ⟨r1, hr1, h1into, h1par⟩ := copyCurvesSplit_spec (show _ = some
    (s1.1, s1.2) by rw [hs1])
  obtain ⟨r2, hr2, h2into, h2par⟩ := copyCurvesSplit_spec (show _ = some
    (s2.1, s2.2) by rw [hs2])
  obtain ⟨r5, hr5, h5into, h5par⟩ := copySurfacesTrim_spec (show _ = some
    (s5.1, s5.2) by rw [hs5])
  obtain ⟨r6, hr6, h6into, h6par⟩ := copySurfacesTrim_spec (show _ = some
    (s6.1, s6.2) by rw [hs6])
  have e1c : s1.1.curve = r1.1 := by rw [h1into]
  have e2c : s2.1.curve = r2.1 := by rw [h2into]
  have e5c : s5.1.curve = in4.curve := by rw [h5into]
  have e5s : s5.1.surface = r5.1 := by rw [h5into]
  have e5p : s5.2.surface = r5.2.1 := by rw [h5par]
  have e5pc : s5.2.curve = r1.2 := by
    rw [h5par]
    simp only [MakeClassifyingBsps, CleanupAfterBoolean]
    rw [h1par]
  have e6c : s6.1.curve = in4.curve := by rw [h6into, e5c]
  have e6s : s6.1.surface = r6.1 := by rw [h6into]
  have e6p : s6.2.surface = r6.2.1 := by rw [h6par]
  have e6pc : s6.2.curve = r2.2 := by
    rw [h6par]
    simp only [MakeClassifyingBsps, CleanupAfterBoolean]
    rw [h2par]
  obtain ⟨hrssMap, hrssSurf⟩ := removeShort_spec hin4
  obtain ⟨hBF, hSurfEq⟩ := rewriteHandles_preserve _ _ _ _ hin7
  have hSurfEq2 : r.surface = r6.1 := by rw [hSurfEq, e6s]
  have hin4map : in4.curve.map (fun c => c.h) =
      (addCurvesList r2.1 bc.interCurves).map (fun c => c.h) := by
    rw [hrssMap]
    simp only [MakeIntersectionCurvesAgainst]
    rw [e2c]
  have hCurveMap : r.curve.map (fun c => c.h) =
      (addCurvesList r2.1 bc.interCurves).map (fun c => c.h) := by
    rw [rewriteHandles_curve_map hin7, e6c, hin4map]
  have curveUnique : ∀ k, HasUniqueBy (fun c : SCurve => c.h) r2.1 k →
      countH (fun c : SCurve => c.h) r.curve k = 1 := by
    intro k hk
    have h3 := addCurvesList_mono bc.interCurves r2.1 k hk
    exact countH_eq_one (hasUniqueBy_of_map_eq hCurveMap h3)
  rw [e1c] at hr2
  rw [e5s] at hr6
  obtain ⟨monoC1, uniqC1⟩ := copyCurvesGo_spec bc.splitA true _ _ _ r1.1 r1.2
    (by rw [hr1])
  obtain ⟨monoC2, uniqC2⟩ := copyCurvesGo_spec bc.splitB false _ _ _ r2.1 r2.2
    (by rw [hr2])
  obtain ⟨monoS5, uniqS5⟩ := copySurfacesGo_spec bc.trimsA _ _ _ _ r5.1 r5.2.1
    r5.2.2 (by rw [hr5])
  obtain ⟨monoS6, uniqS6⟩ := copySurfacesGo_spec bc.trimsB _ _ _ _ r6.1 r6.2.1
    r6.2.2 (by rw [hr6])
  have surfUnique : ∀ k, HasUniqueBy (fun s : SSurface => s.h) r6.1 k →
      countH (fun s : SSurface => s.h) r.surface k = 1 := by
    intro k hk
    rw [hSurfEq2]
    exact countH_eq_one hk
  have ha2c : a2.curve = r1.2 := by
    rw [ha2]
    simp only [CleanupAfterBoolean]
    exact e5pc
  have hb2c : b2.curve = r2.2 := by
    rw [hb2]
    simp only [CleanupAfterBoolean]
    exact e6pc
  refine ⟨?_, ?_, ?_⟩
  · intro sc hsc
    rcases List.mem_append.mp hsc with h1 | h1
    · rw [ha2c] at h1
      exact curveUnique _ (monoC2 _ (uniqC1 sc h1))
    · rw [hb2c] at h1
      exact curveUnique _ (uniqC2 sc h1)
  · intro ss hss
    rcases List.mem_append.mp hss with h1 | h1
    · rw [ha2] at h1
      obtain ⟨s0, hs0, hnh⟩ := cleanup_surface_mem ss h1
      rw [e5p] at hs0
      rw [hnh]
      exact surfUnique _ (monoS6 _ (uniqS5 s0 hs0))
    · rw [hb2] at h1
      obtain ⟨s0, hs0, hnh⟩ := cleanup_surface_mem ss h1
      rw [e6p] at hs0
      rw [hnh]
      exact surfUnique _ (uniqS6 s0 hs0)
  · intro sc hsc
    obtain ⟨sc0, hsc0, sA2, sB2, hgA, hgB, hyA, hyB⟩ :=
      rewriteHandles_mem hin7 sc hsc
    have hAmem := getSurfaceA_mem hgA
    have hBmem := getSurfaceB_mem hgB
    constructor
    · have hu : HasUniqueBy (fun s : SSurface => s.h) r6.1 sA2.newH := by
        rcases hAmem.1 with hm | hm
        · rw [e5p] at hm
          exact monoS6 _ (uniqS5 sA2 hm)
        · rw [e6p] at hm
          exact uniqS6 sA2 hm
      obtain ⟨x, hx, hxh⟩ := hasUniqueBy_mem hu
      refine ⟨x, by rw [hSurfEq2]; exact hx, by rw [hxh, hyA]⟩
    · have hu : HasUniqueBy (fun s : SSurface => s.h) r6.1 sB2.newH := by
        rcases hBmem.1 with hm | hm
        · rw [e5p] at hm
          exact monoS6 _ (uniqS5 sB2 hm)
        · rw [e6p] at hm
          exact uniqS6 sB2 hm
      obtain ⟨x, hx, hxh⟩ := hasUniqueBy_mem hu
      refine ⟨x, by rw [hSurfEq2]; exact hx, by rw [hxh, hyB]⟩

/-- Claim C4: after a completed MakeFromBoolean or MakeFromAssemblyOf on
operand shells a and b, every operand curve's and surface's newH field
designates exactly one curve or surface of the result shell, and every
result curve's surfA and surfB handles are rewritten to surface handles that
exist in the result shell. -/
theorem handles_c4 :
    (∀ (a b r a2 b2 : SShell), MakeFromAssemblyOf a b = some (r, a2, b2) →
       HandleSpec r a2 b2) ∧
    (∀ (bc : BoolCtx) (a b : SShell) (type : CombineAs) (r a2 b2 : SShell),
       MakeFromBoolean bc a b type = some (r, a2, b2) →
       HandleSpec r a2 b2) :=
  ⟨assembly_handleSpec, boolean_handleSpec⟩

/-- Witness for handles_c4: a one-surface, one-curve assembly and a Boolean
of empty shells, both completing. -/
theorem handles_c4_witness :
    HandleSpec
      ⟨[⟨1, 0, [], SBspUv.nil, []⟩],
       [⟨1, 0, 1, 1, SCurveSource.A, true, [⟨0, ⟨0, 0, 0⟩, true⟩]⟩], false⟩
      ⟨[⟨1, 1, [], SBspUv.nil, []⟩],
       [⟨1, 1, 1, 1, SCurveSource.A, true, [⟨0, ⟨0, 0, 0⟩, true⟩]⟩], false⟩
      shellEmpty ∧
    HandleSpec shellEmpty shellEmpty shellEmpty :=
  ⟨handles_c4.1 aW shellEmpty _ _ _ rfl,
   handles_c4.2 bcTrivial shellEmpty shellEmpty CombineAs.UNION shellEmpty
     shellEmpty shellEmpty rfl⟩

end SlvsBool
